import Mathlib

/-!
Verification of the itinerary-to-segment resolution pipeline of
kayak-travel-viz (scripts/build.py).  The Python source is shallowly
embedded: JSON scalar values become an inductive type, Python's `or`
defaults and truthiness become explicit helpers, dictionaries become
association lists or lookup functions, and code that can raise an
exception returns `Except String`.  All definitions are executable.
-/

namespace KayakViz

/-- Whitespace test used by Python str.strip and the regex class \s (ASCII model). -/
def pyIsSpace (c : Char) : Bool :=
  (c == ' ') || (c == '\t') || (c == '\n') || (c == '\r') || (c == '\x0b') || (c == '\x0c')

/-- Model of Python str.strip with no argument: drop whitespace at both ends. -/
def pyStrip (s : String) : String :=
  String.mk (((s.data.dropWhile pyIsSpace).reverse.dropWhile pyIsSpace).reverse)

/-- Model of Python str.upper on ASCII text. -/
def pyUpper (s : String) : String := String.mk (s.data.map Char.toUpper)

/-- Model of Python str.lower on ASCII text. -/
def pyLower (s : String) : String := String.mk (s.data.map Char.toLower)

/-- Python truthiness of an optional string: None and the empty string are falsy. -/
def pyT : Option String → Bool
  | none => false
  | some s => !(s == "")

/-- Python `a or b` where `a` is an optional string and `b` a string default. -/
def pyOrD (o : Option String) (d : String) : String :=
  match o with
  | none => d
  | some s => if s == "" then d else s

/-- Python `str(raw) if raw else None`: collapse None and "" to None. -/
def pyTruthyOpt : Option String → Option String
  | none => none
  | some s => if s == "" then none else some s

/-- Auxiliary for the substring test: does `needle` occur in the list? -/
def hasSubAux (needle : List Char) : List Char → Bool
  | [] => needle.isEmpty
  | c :: rest => needle.isPrefixOf (c :: rest) || hasSubAux needle rest

/-- Python `needle in hay` substring containment on strings. -/
def hasSub (hay needle : String) : Bool := hasSubAux needle.data hay.data

/-- Greedily read decimal digits from the front, returning their values and the rest. -/
def takeDigits : List Char → List Nat × List Char
  | [] => ([], [])
  | c :: rest =>
    if c.isDigit then
      let p := takeDigits rest
      ((c.toNat - 48) :: p.1, p.2)
    else ([], c :: rest)

/-- Value of a list of decimal digit values, most significant first. -/
def natOfDigitList (ds : List Nat) : Nat := ds.foldl (fun a d => 10 * a + d) 0

/-- Model of Python float() on a character list (after stripping): sign,
integer digits, optional fraction, optional exponent.  Returns none exactly
where float() raises ValueError (the special forms inf/nan/underscores do
not occur in this pipeline's data and are mapped to none as well). -/
def pyFloatCore (l : List Char) : Option ℚ :=
  let p0 :=
    match l with
    | '-' :: r => (true, r)
    | '+' :: r => (false, r)
    | _ => (false, l)
  let neg := p0.1
  let p1 := takeDigits p0.2
  let ids := p1.1
  let p2 :=
    match p1.2 with
    | '.' :: r => takeDigits r
    | _ => ([], p1.2)
  let fds := p2.1
  let l3 := match p1.2 with | '.' :: _ => p2.2 | _ => p1.2
  if ids.isEmpty && fds.isEmpty then none
  else
    let mant : ℚ := (natOfDigitList ids : ℚ) + (natOfDigitList fds : ℚ) / ((10 : ℚ) ^ fds.length)
    let signed : ℚ := if neg then -mant else mant
    match l3 with
    | [] => some signed
    | e :: r =>
      if e == 'e' || e == 'E' then
        let p3 :=
          match r with
          | '-' :: rr => (true, rr)
          | '+' :: rr => (false, rr)
          | _ => (false, r)
        let p4 := takeDigits p3.2
        if (p4.1).isEmpty || !(p4.2).isEmpty then none
        else
          let ex := natOfDigitList p4.1
          some (if p3.1 then signed / (10 : ℚ) ^ ex else signed * (10 : ℚ) ^ ex)
      else none

/-- Model of Python float() on a string (float strips whitespace itself). -/
def pyFloat (s : String) : Option ℚ := pyFloatCore (pyStrip s).data

/-- A JSON scalar as seen by the pipeline: a number or a string. -/
inductive PyVal where
  | vnum (q : ℚ)
  | vstr (s : String)
deriving DecidableEq, Repr

/-- Python float() on a JSON scalar with the exception swallowed
(used inside coords_from_address, whose try/except discards failures). -/
def tryFloatV : PyVal → Option ℚ
  | .vnum q => some q
  | .vstr s => pyFloat s

/-- Python float() on an optional JSON scalar where the exception propagates
(the lodging branch of collect_segments): float(None) raises TypeError and
float of a non-numeric string raises ValueError. -/
def floatJ : Option PyVal → Except String ℚ
  | none => .error ("TypeError")
  | some (.vnum q) => .ok q
  | some (.vstr s) =>
    match pyFloat s with
    | some q => .ok q
    | none => .error ("ValueError")

/-! IATA code extraction (iata_from_raw and its two regexes). -/

/-- The IATA_ALIASES table of build.py. -/
def IATA_ALIASES : List (String × String) :=
  [("TXL", "BER"), ("SXF", "BER"), ("NYC", "JFK")]

/-- Association-list lookup (Python dict read). -/
def alookup {α : Type} (k : String) : List (String × α) → Option α
  | [] => none
  | p :: rest => if p.1 == k then some p.2 else alookup k rest

/-- IATA_ALIASES.get(code, code). -/
def aliasGet (c : String) : String := (alookup c IATA_ALIASES).getD c

/-- Uppercase ASCII letter test, the regex class [A-Z]. -/
def isUp (c : Char) : Bool := decide ('A' ≤ c) && decide (c ≤ 'Z')

/-- Model of the full match of IATA_STRICT_RE, the pattern
three uppercase letters optionally followed by \s* and a parenthesized
three-letter group; returns the chosen code: the parenthesized group if
present, else the leading one. -/
def iataStrict (l : List Char) : Option String :=
  match l with
  | a :: b :: c :: rest =>
    if isUp a && isUp b && isUp c then
      match rest with
      | [] => some (String.mk [a, b, c])
      | _ =>
        match rest.dropWhile pyIsSpace with
        | '(' :: d :: e :: f :: ')' :: [] =>
          if isUp d && isUp e && isUp f then some (String.mk [d, e, f]) else none
        | _ => none
    else none
  | _ => none

/-- Fuelled scanner for IATA_PAREN_RE.findall: collect every non-overlapping
occurrence of a parenthesized three-uppercase-letter group, left to right. -/
def parenFindAllFuel : Nat → List Char → List String
  | 0, _ => []
  | _ + 1, [] => []
  | fuel + 1, '(' :: rest =>
    match rest with
    | d :: e :: f :: ')' :: rest2 =>
      if isUp d && isUp e && isUp f then String.mk [d, e, f] :: parenFindAllFuel fuel rest2
      else parenFindAllFuel fuel rest
    | _ => parenFindAllFuel fuel rest
  | fuel + 1, _ :: rest => parenFindAllFuel fuel rest

/-- IATA_PAREN_RE.findall on a character list. -/
def parenFindAll (l : List Char) : List String := parenFindAllFuel l.length l

/-- Model of iata_from_raw: strict full match first (parenthesized code
preferred), else the last parenthesized code anywhere, alias table applied
to the chosen code; None and "" inputs yield no match. -/
def iata_from_raw (raw : Option String) : Option String :=
  match raw with
  | none => none
  | some r =>
    if r == "" then none
    else
      let rawUp := pyUpper (pyStrip r)
      match iataStrict rawUp.data with
      | some code => some (aliasGet code)
      | none =>
        match (parenFindAll rawUp.data).getLast? with
        | some code => some (aliasGet code)
        | none => none

/-! Airport reference index (load_iata_index). -/

/-- One entry of the index: the tuple (lat, lon, name, iso_country). -/
structure AirportRec where
  lat : ℚ
  lon : ℚ
  name : String
  country : Option String
deriving DecidableEq, Repr

/-- The MANUAL_AIRPORTS patch table of build.py. -/
def MANUAL_AIRPORTS : List (String × AirportRec) :=
  [("LGP", ⟨13.1575, 123.7350, "Legazpi Airport", some ("PH")⟩)]

/-- The index maps a 3-letter code to its record (Python dict, read side). -/
abbrev Idx := String → Option AirportRec

/-- Python dict assignment idx[k] = v. -/
def updateIdx (idx : Idx) (k : String) (v : AirportRec) : Idx :=
  fun k' => if k' == k then some v else idx k'

/-- One row of the primary (OurAirports) dataset, the fields build.py reads;
a missing field models a missing CSV column (row.get returning None). -/
structure PrimaryRow where
  iata_code : Option String
  latitude_deg : Option String
  longitude_deg : Option String
  name : Option String
  iso_country : Option String
deriving Repr

/-- The normalized code field of a primary row: (row.get or "").strip().upper(). -/
def primCode (row : PrimaryRow) : String := pyUpper (pyStrip (row.iata_code.getD ("")))

/-- Processing of one primary-dataset row: skip when the normalized code is
empty or not 3 characters or a coordinate fails float(); otherwise assign. -/
def primStep (idx : Idx) (row : PrimaryRow) : Idx :=
  let iata := primCode row
  if iata == "" || !(iata.length == 3) then idx
  else
    match pyFloat (row.latitude_deg.getD ("")), pyFloat (row.longitude_deg.getD ("")) with
    | some la, some lo =>
      let nm := pyStrip (row.name.getD (""))
      let c0 := pyUpper (pyStrip (row.iso_country.getD ("")))
      updateIdx idx iata ⟨la, lo, nm, if c0 == "" then none else some c0⟩
    | _, _ => idx

/-- The normalized code field of a secondary row: (parts[4] or "").strip().upper(). -/
def secCode (parts : List String) : String := pyUpper (pyStrip (parts.getD 4 ("")))

/-- Processing of one secondary (OpenFlights) line, already split into
fields: skip short rows, the \N missing marker, malformed codes and
coordinates, and codes already present in the index. -/
def secStep (idx : Idx) (parts : List String) : Idx :=
  if parts.length < 8 then idx
  else
    let iata := secCode parts
    if iata == "" || iata == "\\N" || !(iata.length == 3) then idx
    else if (idx iata).isSome then idx
    else
      match pyFloat (parts.getD 6 ("")), pyFloat (parts.getD 7 ("")) with
      | some la, some lo => updateIdx idx iata ⟨la, lo, pyStrip (parts.getD 1 ("")), none⟩
      | _, _ => idx

/-- Manual patches applied last, filling only still-missing codes. -/
def manualStep (idx : Idx) : Idx :=
  MANUAL_AIRPORTS.foldl (fun i p => if (i p.1).isSome then i else updateIdx i p.1 p.2) idx

/-- Model of load_iata_index: primary rows first (plain assignment), then
secondary rows (fill gaps only), then manual patches. -/
def load_iata_index (prim : List PrimaryRow) (sec : List (List String)) : Idx :=
  let idx1 := prim.foldl primStep (fun _ => none)
  let idx2 := sec.foldl secStep idx1
  manualStep idx2

/-! Timestamps: model of datetime.strptime with the two formats of parse_dt,
of the tz attachment, of datetime comparison (which raises TypeError between
naive and aware values) and of dt_iso.  A tzinfo object is modelled as a
fixed UTC offset in minutes; the dateutil tz database is a parameter
tzdb : String → Option Int (gettz returning None for unknown identifiers). -/

/-- A parsed datetime; tzOffsetMin none means a naive value. -/
structure DateTime where
  year : Nat
  month : Nat
  day : Nat
  hour : Nat
  minute : Nat
  second : Nat
  microsecond : Nat
  tzOffsetMin : Option Int
deriving DecidableEq, Repr

/-- Leap-year rule of the Gregorian calendar. -/
def isLeap (y : Nat) : Bool := (y % 4 == 0 && !(y % 100 == 0)) || y % 400 == 0

/-- Number of days of month m in year y. -/
def daysInMonth (y m : Nat) : Nat :=
  if m == 2 then (if isLeap y then 29 else 28)
  else if m == 4 || m == 6 || m == 9 || m == 11 then 30
  else 31

/-- Parse exactly four decimal digits (the strptime directive %Y). -/
def parse4Digits : List Char → Option (Nat × List Char)
  | a :: b :: c :: d :: rest =>
    if a.isDigit && b.isDigit && c.isDigit && d.isDigit then
      some (((a.toNat - 48) * 1000 + (b.toNat - 48) * 100 + (c.toNat - 48) * 10 + (d.toNat - 48)), rest)
    else none
  | _ => none

/-- Parse a one-or-two-digit field the way the strptime regexes do: a
two-digit match is taken when its value is allowed by ok2, else a one-digit
match when allowed by ok1.  (For these formats the regex backtracking never
produces any other outcome, since every field is followed by a non-digit.) -/
def parse2or1 (ok2 ok1 : Nat → Bool) : List Char → Option (Nat × List Char)
  | [] => none
  | [a] => if a.isDigit && ok1 (a.toNat - 48) then some ((a.toNat - 48), []) else none
  | a :: b :: rest =>
    if a.isDigit then
      if b.isDigit then
        let v := 10 * (a.toNat - 48) + (b.toNat - 48)
        if ok2 v then some (v, rest)
        else if ok1 (a.toNat - 48) then some ((a.toNat - 48), b :: rest) else none
      else if ok1 (a.toNat - 48) then some ((a.toNat - 48), b :: rest) else none
    else none

/-- Expect one literal character. -/
def expectChar (c : Char) : List Char → Option (List Char)
  | x :: rest => if x == c then some rest else none
  | [] => none

/-- Parse the common prefix %Y-%m-%d %H:%M:%S of both formats of parse_dt,
returning the six fields and the unconsumed rest. -/
def strptimeMain (l : List Char) : Option (Nat × Nat × Nat × Nat × Nat × Nat × List Char) :=
  match parse4Digits l with
  | none => none
  | some (y, r1) =>
    match expectChar '-' r1 with
    | none => none
    | some r2 =>
      match parse2or1 (fun v => 1 ≤ v && v ≤ 12) (fun v => 1 ≤ v) r2 with
      | none => none
      | some (m, r3) =>
        match expectChar '-' r3 with
        | none => none
        | some r4 =>
          match parse2or1 (fun v => 1 ≤ v && v ≤ 31) (fun v => 1 ≤ v) r4 with
          | none => none
          | some (d, r5) =>
            match expectChar ' ' r5 with
            | none => none
            | some r6 =>
              match parse2or1 (fun v => v ≤ 23) (fun _ => true) r6 with
              | none => none
              | some (h, r7) =>
                match expectChar ':' r7 with
                | none => none
                | some r8 =>
                  match parse2or1 (fun v => v ≤ 59) (fun _ => true) r8 with
                  | none => none
                  | some (mi, r9) =>
                    match expectChar ':' r9 with
                    | none => none
                    | some r10 =>
                      match parse2or1 (fun v => v ≤ 61) (fun _ => true) r10 with
                      | none => none
                      | some (se, r11) => some (y, m, d, h, mi, se, r11)

/-- Field validation done by the datetime constructor after the regex match:
strptime raises ValueError when the day overflows the month or the second is
60 or 61 or the year is 0. -/
def validDt (y m d h mi se : Nat) : Bool :=
  1 ≤ y && 1 ≤ m && m ≤ 12 && 1 ≤ d && d ≤ daysInMonth y m && h ≤ 23 && mi ≤ 59 && se ≤ 59

/-- Microsecond value of the %f digit group, right-padded to six digits. -/
def usOfDigits (ds : List Nat) : Nat := natOfDigitList ds * 10 ^ (6 - ds.length)

/-- Model of datetime.strptime(s, fmt) for the two formats of parse_dt:
withFrac selects the %Y-%m-%d %H:%M:%S.%f format, otherwise the
fraction-less one; the whole string must be consumed. -/
def pyStrptime (withFrac : Bool) (s : String) : Option DateTime :=
  match strptimeMain s.data with
  | none => none
  | some (y, m, d, h, mi, se, rest) =>
    if withFrac then
      match rest with
      | '.' :: ds =>
        if !ds.isEmpty && ds.length ≤ 6 && ds.all Char.isDigit && validDt y m d h mi se then
          some ⟨y, m, d, h, mi, se, usOfDigits (ds.map (fun c => c.toNat - 48)), none⟩
        else none
      | _ => none
    else
      match rest with
      | [] => if validDt y m d h mi se then some ⟨y, m, d, h, mi, se, 0, none⟩ else none
      | _ => none

/-- The try/except fallback chain of parse_dt: the fractional format first,
the fraction-less one when it raises. -/
def parseBase (s : String) : Option DateTime :=
  match pyStrptime true s with
  | some dt => some dt
  | none => pyStrptime false s

/-- Model of parse_dt: falsy input gives None; strip; try the fractional
format then the fraction-less one; on success attach tz.gettz(tzid) as the
tzinfo when a truthy tzid is given (an unknown identifier leaves the value
naive, since gettz returns None). -/
def parse_dt (tzdb : String → Option Int) (os : Option String) (otzid : Option String) :
    Option DateTime :=
  match os with
  | none => none
  | some s =>
    if s == "" then none
    else
      match parseBase (pyStrip s) with
      | none => none
      | some dt =>
        match otzid with
        | some z => if z == "" then some dt else some { dt with tzOffsetMin := tzdb z }
        | none => some dt

/-- Days from civil date (proleptic Gregorian), Hinnant's algorithm. -/
def daysFromCivil (y : Int) (m d : Nat) : Int :=
  let yy := y - (if m ≤ 2 then 1 else 0)
  let era := yy.fdiv 400
  let yoe := (yy - era * 400).toNat
  let mp := if 3 ≤ m then m - 3 else m + 9
  let doy := (153 * mp + 2) / 5 + d - 1
  let doe := yoe * 365 + yoe / 4 - yoe / 100 + doy
  era * 146097 + (doe : Int) - 719468

/-- Civil date from a day count, inverse of daysFromCivil. -/
def civilFromDays (z0 : Int) : Int × Nat × Nat :=
  let z := z0 + 719468
  let era := z.fdiv 146097
  let doe := (z - era * 146097).toNat
  let yoe := (doe - doe / 1460 + doe / 36524 - doe / 146096) / 365
  let doy := doe - (365 * yoe + yoe / 4 - yoe / 100)
  let mp := (5 * doy + 2) / 153
  let dd := doy - (153 * mp + 2) / 5 + 1
  let m := if mp < 10 then mp + 3 else mp - 9
  let y := (yoe : Int) + era * 400 + (if m ≤ 2 then 1 else 0)
  (y, m, dd)

/-- Wall-clock microseconds of a DateTime, ignoring its tzinfo. -/
def naiveUs (d : DateTime) : Int :=
  (daysFromCivil (d.year : Int) d.month d.day * 86400
    + ((d.hour * 3600 + d.minute * 60 + d.second : Nat) : Int)) * 1000000
    + (d.microsecond : Int)

/-- Python datetime comparison a < b: naive values compare by fields, aware
values by UTC instant, and mixing the two raises TypeError. -/
def dtLt (a b : DateTime) : Except String Bool :=
  match a.tzOffsetMin, b.tzOffsetMin with
  | none, none => .ok (decide (naiveUs a < naiveUs b))
  | some x, some y => .ok (decide (naiveUs a - x * 60000000 < naiveUs b - y * 60000000))
  | _, _ => .error ("TypeError")

/-- Left-pad a number with zeros to the given width. -/
def padNum (w n : Nat) : String :=
  let s := toString n
  String.mk (List.replicate (w - s.length) '0') ++ s

/-- Python datetime.isoformat() of a naive value (microseconds omitted when zero). -/
def isoNaiveStr (d : DateTime) : String :=
  padNum 4 d.year ++ "-" ++ padNum 2 d.month ++ "-" ++ padNum 2 d.day ++ "T"
    ++ padNum 2 d.hour ++ ":" ++ padNum 2 d.minute ++ ":" ++ padNum 2 d.second
    ++ (if d.microsecond == 0 then "" else "." ++ padNum 6 d.microsecond)

/-- Convert an aware DateTime (with offset minutes) to UTC wall time. -/
def utcOf (d : DateTime) (off : Int) : DateTime :=
  let t := naiveUs d - off * 60000000
  let us := (t.emod 1000000).toNat
  let secs := t.ediv 1000000
  let sod := (secs.emod 86400).toNat
  let days := secs.ediv 86400
  let c := civilFromDays days
  ⟨(c.1).toNat, c.2.1, c.2.2, sod / 3600, (sod / 60) % 60, sod % 60, us, some 0⟩

/-- Model of dt_iso: None for None; naive values format as-is; aware values
convert to UTC and carry the +00:00 suffix. -/
def dt_iso : Option DateTime → Option String
  | none => none
  | some d =>
    match d.tzOffsetMin with
    | none => some (isoNaiveStr d)
    | some off => some (isoNaiveStr (utcOf d off) ++ "+00:00")

/-! Input data model: the JSON shapes collect_segments reads.  An absent
optional field models both a missing key and a JSON null (dict.get returns
None for both); an absent Address models both a missing and an empty
address dict (both falsy). -/

/-- An address sub-object; latitude and longitude are JSON scalars since the
code converts them with float(). -/
structure Address where
  latitude : Option PyVal
  longitude : Option PyVal
  city : Option String
  rawAddress : Option String
  locationName : Option String
deriving Repr

/-- One raw segment of a leg. -/
structure RawSeg where
  departureDate : Option String
  arrivalDate : Option String
  departureTimeZoneID : Option String
  arrivalTimeZoneID : Option String
  departureAddress : Option Address
  arrivalAddress : Option Address
deriving Repr

/-- One leg (the code reads only its segments array, defaulting to []). -/
structure Leg where
  segments : List RawSeg
deriving Repr

/-- One trip event; id is the formatted value of the id key when present. -/
structure TripEvent where
  UIDescription : Option String
  id : Option String
  address : Option Address
  venueStartDate : Option String
  venueEndDate : Option String
  legs : List Leg
deriving Repr

/-- One parsed input document. -/
structure DocObj where
  tripID : Option String
  customName : Option String
  name : Option String
  tripEvents : List TripEvent
deriving Repr

/-- One input file: its stem and its parse result (none when json.loads
raised, making collect_segments skip the whole file). -/
structure SrcFile where
  stem : String
  content : Option DocObj
deriving Repr

/-- The canonical output unit, the SegmentRecord dataclass of build.py. -/
structure SegmentRecord where
  trip_group_key : String
  trip_name : String
  trip_key : String
  type : String
  from_label : String
  to_label : String
  departure : Option DateTime
  arrival : Option DateTime
  from_lat : ℚ
  from_lon : ℚ
  to_lat : ℚ
  to_lon : ℚ
deriving DecidableEq, Repr

/-- One event summary dict as built by collect_segments (end is a reserved
word in Lean, hence end_). -/
structure EventSummary where
  tripGroupKey : String
  tripName : String
  tripKey : String
  title : String
  type : String
  year : Option Nat
  start : Option String
  end_ : Option String
  segmentCount : Nat
deriving DecidableEq, Repr

/-- Model of coords_from_address: an absent or empty dict gives all None;
present numeric-convertible latitude and longitude give both coordinates,
any failure (caught inside) gives none for both; the raw address string is
passed through with Python truthiness. -/
def coords_from_address : Option Address → Option ℚ × Option ℚ × Option String
  | none => (none, none, none)
  | some addr =>
    let rawS := pyTruthyOpt addr.rawAddress
    match addr.latitude, addr.longitude with
    | some lv, some lov =>
      match tryFloatV lv, tryFloatV lov with
      | some a, some b => (some a, some b, rawS)
      | _, _ => (none, none, rawS)
    | _, _ => (none, none, rawS)

/-- The endpoint label before code resolution: city, else rawAddress, else
the raw string from coords_from_address, else the side's default. -/
def endpointLabel (oaddr : Option Address) (raw : Option String) (dflt : String) : String :=
  pyOrD (oaddr.bind Address.city) (pyOrD (oaddr.bind Address.rawAddress) (pyOrD raw dflt))

/-- Resolution of one endpoint: direct coordinates when present, else code
extraction from the raw address plus index lookup, decorating the label
with the code in parentheses when the code is not already a substring. -/
def resolveSide (idx : Idx) (oaddr : Option Address) (dflt : String) :
    Option ℚ × Option ℚ × String :=
  let c := coords_from_address oaddr
  let la := c.1
  let lo := c.2.1
  let raw := c.2.2
  let label := endpointLabel oaddr raw dflt
  if la.isNone || lo.isNone then
    match iata_from_raw raw with
    | some code =>
      if code == "" then (la, lo, label)
      else
        match idx code with
        | some rec =>
          let lbl := if label == "" then code else label
          let lbl := if !(lbl == "") && !(hasSub lbl code) then lbl ++ " (" ++ code ++ ")" else lbl
          (some rec.lat, some rec.lon, lbl)
        | none => (la, lo, label)
    | none => (la, lo, label)
  else (la, lo, label)

/-- Build the SegmentRecord for one raw segment, or none when either
endpoint stays unresolved (the segment is then discarded). -/
def mkSeg (tzdb : String → Option Int) (idx : Idx) (gk nm t trip_key : String)
    (seg : RawSeg) : Option SegmentRecord :=
  let dep_dt := parse_dt tzdb seg.departureDate seg.departureTimeZoneID
  let arr_dt := parse_dt tzdb seg.arrivalDate seg.arrivalTimeZoneID
  let dep := resolveSide idx seg.departureAddress ("Departure")
  let arr := resolveSide idx seg.arrivalAddress ("Arrival")
  match dep.1, dep.2.1, arr.1, arr.2.1 with
  | some q1, some q2, some q3, some q4 =>
    some ⟨gk, nm, trip_key, t, dep.2.2, arr.2.2, dep_dt, arr_dt, q1, q2, q3, q4⟩
  | _, _, _, _ => none

/-- The running state of the per-event segment loop: raw segment counter,
min departure, max arrival, title guess, and the global segment list. -/
structure EvState where
  seg_count : Nat
  start_dt : Option DateTime
  end_dt : Option DateTime
  title_guess : Option String
  segs : List SegmentRecord
deriving Repr

/-- Keep the running minimum departure (short-circuit: no comparison when
either side is absent, so no TypeError can come from an absent value). -/
def updMin (cur odt : Option DateTime) : Except String (Option DateTime) :=
  match odt with
  | none => .ok cur
  | some dd =>
    match cur with
    | none => .ok (some dd)
    | some sd =>
      match dtLt dd sd with
      | .error e => .error e
      | .ok b => .ok (if b then some dd else some sd)

/-- Keep the running maximum arrival, mirroring updMin. -/
def updMax (cur odt : Option DateTime) : Except String (Option DateTime) :=
  match odt with
  | none => .ok cur
  | some dd =>
    match cur with
    | none => .ok (some dd)
    | some sd =>
      match dtLt sd dd with
      | .error e => .error e
      | .ok b => .ok (if b then some dd else some sd)

/-- The flattened per-event loop over raw segments: count every raw segment,
track the date range from every raw segment (also the discarded ones), then
append the resolved record and set the title from the first survivor. -/
def goSegs (tzdb : String → Option Int) (idx : Idx) (gk nm t trip_key : String) :
    List RawSeg → EvState → Except String EvState
  | [], st => .ok st
  | seg :: rest, st =>
    let st1 : EvState := { st with seg_count := st.seg_count + 1 }
    let dep_dt := parse_dt tzdb seg.departureDate seg.departureTimeZoneID
    let arr_dt := parse_dt tzdb seg.arrivalDate seg.arrivalTimeZoneID
    match updMin st1.start_dt dep_dt with
    | .error e => .error e
    | .ok ns =>
      match updMax st1.end_dt arr_dt with
      | .error e => .error e
      | .ok ne =>
        let st2 : EvState := { st1 with start_dt := ns, end_dt := ne }
        match mkSeg tzdb idx gk nm t trip_key seg with
        | none => goSegs tzdb idx gk nm t trip_key rest st2
        | some srec =>
          let tg := if pyT st2.title_guess then st2.title_guess
                    else some (srec.from_label ++ " → " ++ srec.to_label)
          goSegs tzdb idx gk nm t trip_key rest
            { st2 with title_guess := tg, segs := st2.segs ++ [srec] }

/-- The lodging shortcut condition: UIDescription (defaulted to Other)
lowercases to hotel and the event address carries a non-null latitude. -/
def hotelShortcut (ev : TripEvent) : Bool :=
  pyLower (pyOrD ev.UIDescription ("Other")) == "hotel" && (ev.address.bind Address.latitude).isSome

/-- The trip key of an event: stem:id, with the positional index when the
id key is absent. -/
def tripKeyStr (stem : String) (i : Nat) (ev : TripEvent) : String :=
  stem ++ ":" ++ (match ev.id with | some s => s | none => toString i)

/-- Processing of one trip event: the lodging shortcut (which can raise
through float()) or the leg/segment loop followed by the summary emission
when at least one raw segment was seen; returns the grown global segment
list and the emitted summary, if any. -/
def processEvent (tzdb : String → Option Int) (idx : Idx) (gk nm stem : String) (i : Nat)
    (ev : TripEvent) (segs : List SegmentRecord) :
    Except String (List SegmentRecord × Option EventSummary) :=
  let t := pyOrD ev.UIDescription ("Other")
  let trip_key := tripKeyStr stem i ev
  if hotelShortcut ev then
    match floatJ (ev.address.bind Address.latitude) with
    | .error e => .error e
    | .ok _ =>
      match floatJ (ev.address.bind Address.longitude) with
      | .error e => .error e
      | .ok _ =>
        let label := pyOrD (ev.address.bind Address.locationName)
          (pyOrD (ev.address.bind Address.rawAddress) ("Hotel"))
        let start := parse_dt tzdb ev.venueStartDate none
        let stop := parse_dt tzdb ev.venueEndDate none
        .ok (segs, some
          { tripGroupKey := gk, tripName := nm, tripKey := trip_key, title := label,
            type := "Hotel", year := start.map DateTime.year, start := dt_iso start,
            end_ := dt_iso stop, segmentCount := 0 })
  else
    match goSegs tzdb idx gk nm t trip_key (ev.legs.flatMap Leg.segments) ⟨0, none, none, none, segs⟩ with
    | .error e => .error e
    | .ok st =>
      if st.seg_count > 0 then
        .ok (st.segs, some
          { tripGroupKey := gk, tripName := nm, tripKey := trip_key,
            title := pyOrD st.title_guess (t ++ " trip"), type := t,
            year := st.start_dt.map DateTime.year, start := dt_iso st.start_dt,
            end_ := dt_iso st.end_dt,
            segmentCount := (st.segs.filter (fun s => s.trip_key == trip_key)).length })
      else .ok (st.segs, none)

/-- Loop over the enumerated events of one document. -/
def goEvents (tzdb : String → Option Int) (idx : Idx) (gk nm stem : String) :
    Nat → List TripEvent → List SegmentRecord →
    Except String (List SegmentRecord × List EventSummary)
  | _, [], segs => .ok (segs, [])
  | i, ev :: rest, segs =>
    match processEvent tzdb idx gk nm stem i ev segs with
    | .error e => .error e
    | .ok (segs1, osum) =>
      match goEvents tzdb idx gk nm stem (i + 1) rest segs1 with
      | .error e => .error e
      | .ok (segs2, sums) => .ok (segs2, osum.toList ++ sums)

/-- Loop over the input files, skipping unparsable documents whole. -/
def goFiles (tzdb : String → Option Int) (idx : Idx) :
    List SrcFile → List SegmentRecord →
    Except String (List SegmentRecord × List EventSummary)
  | [], segs => .ok (segs, [])
  | f :: rest, segs =>
    match f.content with
    | none => goFiles tzdb idx rest segs
    | some doc =>
      let gk := pyOrD doc.tripID f.stem
      let nm := pyOrD doc.customName (pyOrD doc.name f.stem)
      match goEvents tzdb idx gk nm f.stem 0 doc.tripEvents segs with
      | .error e => .error e
      | .ok (segs1, sums1) =>
        match goFiles tzdb idx rest segs1 with
        | .error e => .error e
        | .ok (segs2, sums2) => .ok (segs2, sums1 ++ sums2)

/-- Model of collect_segments over an already-sorted file list. -/
def collect_segments (tzdb : String → Option Int) (idx : Idx) (files : List SrcFile) :
    Except String (List SegmentRecord × List EventSummary) :=
  goFiles tzdb idx files []

/-! Output assembler: grouping of event summaries into trip groups
(main, lines 725-758) with Python's string comparison and stable sort. -/

/-- Python truthiness of an optional integer: None and 0 are falsy. -/
def pyTN : Option Nat → Bool
  | none => false
  | some n => !(n == 0)

/-- Lexicographic strict comparison of character lists by code point,
Python's string < operator. -/
def charListLt : List Char → List Char → Bool
  | _, [] => false
  | [], _ :: _ => true
  | a :: as, b :: bs =>
    if a < b then true else if b < a then false else charListLt as bs

/-- Python string strict comparison. -/
def strLt (a b : String) : Bool := charListLt a.data b.data

/-- Python string comparison a <= b, as the negation of b < a. -/
def strLe (a b : String) : Bool := !(strLt b a)

/-- Stable insertion into an already sorted list: the new element goes
after every element that compares less-or-equal to it, which reproduces
the unique stable sort computed by Python's sorted. -/
def insertS {α : Type} (le : α → α → Bool) (x : α) : List α → List α
  | [] => [x]
  | y :: ys => if le y x then y :: insertS le x ys else x :: y :: ys

/-- Stable sort by repeated insertion in arrival order. -/
def pySorted {α : Type} (le : α → α → Bool) (l : List α) : List α :=
  l.foldl (fun acc x => insertS le x acc) []

/-- One trip group aggregate as built by main. -/
structure TripGroup where
  tripGroupKey : String
  tripName : String
  year : Option Nat
  start : Option String
  end_ : Option String
  events : List EventSummary
deriving DecidableEq, Repr

/-- Sort key order for event summaries: start, with None mapped to "". -/
def leEv (a b : EventSummary) : Bool := strLe (a.start.getD ("")) (b.start.getD (""))

/-- Sort key order for trip groups: start, with None mapped to "". -/
def leTG (a b : TripGroup) : Bool := strLe (a.start.getD ("")) (b.start.getD (""))

/-- The freshly created group dict for a first event of a key. -/
def initG (gk : String) (e : EventSummary) : TripGroup :=
  { tripGroupKey := gk, tripName := pyOrD (some e.tripName) gk, year := e.year,
    start := e.start, end_ := e.end_, events := [] }

/-- The start update of the grouping loop: replace when the event start is
truthy and the group start is falsy or larger. -/
def updStart (g : TripGroup) (e : EventSummary) : TripGroup :=
  if pyT e.start && (!(pyT g.start) || strLt (e.start.getD ("")) (g.start.getD (""))) then
    { g with start := e.start } else g

/-- The end update: replace when the event end is truthy and the group end
is falsy or smaller. -/
def updEnd (g : TripGroup) (e : EventSummary) : TripGroup :=
  if pyT e.end_ && (!(pyT g.end_) || strLt (g.end_.getD ("")) (e.end_.getD (""))) then
    { g with end_ := e.end_ } else g

/-- The year update: replace when the event year is truthy and the group
year is falsy or larger. -/
def updYear (g : TripGroup) (e : EventSummary) : TripGroup :=
  if pyTN e.year && (!(pyTN g.year) || e.year.getD 0 < g.year.getD 0) then
    { g with year := e.year } else g

/-- Append an event to its group and update the derived range, in the order
of the source: events append, then start, end and year. -/
def updateG (g : TripGroup) (e : EventSummary) : TripGroup :=
  updYear (updEnd (updStart { g with events := g.events ++ [e] } e) e) e

/-- Fold step of the grouping loop: skip falsy group keys, create the group
on first sight (appending to the dict in insertion order), else update it
in place. -/
def addEvent (gs : List (String × TripGroup)) (e : EventSummary) : List (String × TripGroup) :=
  let gk := e.tripGroupKey
  if gk == "" then gs
  else
    match alookup gk gs with
    | none => gs ++ [(gk, updateG (initG gk e) e)]
    | some _ => gs.map (fun p => if p.1 == gk then (p.1, updateG p.2 e) else p)

/-- Model of the trip-group assembly of main: group by tripGroupKey in
insertion order, sort each group's events by start (absent first), sort
the groups by start (absent first). -/
def groupTrips (evs : List EventSummary) : List TripGroup :=
  let gs := evs.foldl addEvent []
  pySorted leTG (gs.map (fun p => { p.2 with events := pySorted leEv p.2.events }))

/-- The derived-range correctness of one trip group: every truthy member
start is bounded below by a truthy group start, every truthy member end
bounded above, every truthy member year bounded below, and each truthy
derived field is attained by some member. -/
def GOK (g : TripGroup) : Prop :=
  (∀ e ∈ g.events, pyT e.start = true →
    pyT g.start = true ∧ strLe (g.start.getD ("")) (e.start.getD ("")) = true)
  ∧ (∀ e ∈ g.events, pyT e.end_ = true →
    pyT g.end_ = true ∧ strLe (e.end_.getD ("")) (g.end_.getD ("")) = true)
  ∧ (∀ e ∈ g.events, pyTN e.year = true →
    pyTN g.year = true ∧ g.year.getD 0 ≤ e.year.getD 0)
  ∧ (pyT g.start = true → ∃ e ∈ g.events, e.start = g.start)
  ∧ (pyT g.end_ = true → ∃ e ∈ g.events, e.end_ = g.end_)
  ∧ (pyTN g.year = true → ∃ e ∈ g.events, e.year = g.year)

/-- The invariant of the grouping fold: distinct nonempty keys, each group
tagged with its key, each group range-correct. -/
def InvG (gs : List (String × TripGroup)) : Prop :=
  (gs.map Prod.fst).Nodup
  ∧ ∀ p ∈ gs, p.1 ≠ "" ∧ p.2.tripGroupKey = p.1 ∧ GOK p.2

/-- The trip keys of an enumerated event list, in order. -/
def eventKeysAux (stem : String) : Nat → List TripEvent → List String
  | _, [] => []
  | i, ev :: rest => tripKeyStr stem i ev :: eventKeysAux stem (i + 1) rest

/-- The trip keys contributed by one input file (none when unparsable). -/
def fileEventKeys (f : SrcFile) : List String :=
  match f.content with
  | none => []
  | some doc => eventKeysAux f.stem 0 doc.tripEvents

/-! Concrete inputs used by the witnesses and counterexamples below. -/

/-- An empty timezone database (every identifier unknown). -/
def tzdb0 : String → Option Int := fun _ => none

/-- An empty airport index. -/
def idx0 : Idx := fun _ => none

/-- A raw segment with no data at all: both endpoints unresolvable. -/
def segU : RawSeg := ⟨none, none, none, none, none, none⟩

/-- A transport event whose only segment is unresolvable. -/
def evC1 : TripEvent := ⟨some ("Flight"), none, none, none, none, [⟨[segU]⟩]⟩

/-- A document containing only evC1. -/
def fileC1 : SrcFile := ⟨"a", some ⟨none, none, none, [evC1]⟩⟩

/-- The summary that the pipeline emits for evC1. -/
def sumC1 : EventSummary := ⟨"a", "a", "a:0", "Flight trip", "Flight", none, none, none, 0⟩

/-- A lodging event whose latitude is present but not numeric. -/
def evC2h : TripEvent :=
  ⟨some ("Hotel"), none, some ⟨some (.vstr ("abc")), some (.vnum 0), none, none, none⟩,
    none, none, []⟩

/-- A document containing only evC2h. -/
def fileC2 : SrcFile := ⟨"h", some ⟨none, none, none, [evC2h]⟩⟩

/-- A lodging event with no latitude and no legs. -/
def evC3h : TripEvent :=
  ⟨some ("Hotel"), none, some ⟨none, none, none, some ("Grand Hotel"), some ("Grand")⟩,
    some ("2024-03-01 14:00:00"), none, []⟩

/-- A document containing only evC3h. -/
def fileC3 : SrcFile := ⟨"c", some ⟨none, none, none, [evC3h]⟩⟩

/-- An address with direct numeric coordinates and a city. -/
def addrA : Address := ⟨some (.vnum 1), some (.vnum 2), some ("CityA"), none, none⟩

/-- A second address with direct numeric coordinates and a city. -/
def addrB : Address := ⟨some (.vnum 3), some (.vnum 4), some ("CityB"), none, none⟩

/-- A resolvable raw segment between addrA and addrB (no dates). -/
def segRes : RawSeg := ⟨none, none, none, none, some addrA, some addrB⟩

/-- An unresolvable raw segment that carries a departure date. -/
def segUnres : RawSeg := ⟨some ("2020-01-01 00:00:00"), none, none, none, none, none⟩

/-- A transport event with one resolvable and one unresolvable segment. -/
def evC6 : TripEvent := ⟨some ("Flight"), none, none, none, none, [⟨[segRes]⟩, ⟨[segUnres]⟩]⟩

/-- A document containing only evC6. -/
def fileC6 : SrcFile := ⟨"s", some ⟨none, none, none, [evC6]⟩⟩

/-- The only segment emitted for evC6. -/
def segC6 : SegmentRecord := ⟨"s", "s", "s:0", "Flight", "CityA", "CityB", none, none, 1, 2, 3, 4⟩

/-- The summary emitted for evC6; its date range comes from the discarded
segment segUnres. -/
def sumC6 : EventSummary :=
  ⟨"s", "s", "s:0", "CityA → CityB", "Flight", some 2020, some ("2020-01-01T00:00:00"), none, 1⟩

/-- Two events with the same explicit id, each with one resolvable segment. -/
def evD1 : TripEvent := ⟨some ("Flight"), some ("7"), none, none, none, [⟨[segRes]⟩]⟩

/-- The second event with the colliding id. -/
def evD2 : TripEvent := ⟨some ("Train"), some ("7"), none, none, none, [⟨[segRes]⟩]⟩

/-- A document with two events sharing the trip key d:7. -/
def fileC9 : SrcFile := ⟨"d", some ⟨none, none, none, [evD1, evD2]⟩⟩

/-- The segment emitted for evD1. -/
def segD1 : SegmentRecord := ⟨"d", "d", "d:7", "Flight", "CityA", "CityB", none, none, 1, 2, 3, 4⟩

/-- The segment emitted for evD2, under the same trip key. -/
def segD2 : SegmentRecord := ⟨"d", "d", "d:7", "Train", "CityA", "CityB", none, none, 1, 2, 3, 4⟩

/-- The summary emitted for evD1. -/
def sumD1 : EventSummary := ⟨"d", "d", "d:7", "CityA → CityB", "Flight", none, none, none, 1⟩

/-- The summary emitted for evD2; its segmentCount counts evD1's segment
too, since the global filter matches the shared trip key. -/
def sumD2 : EventSummary := ⟨"d", "d", "d:7", "CityA → CityB", "Train", none, none, none, 2⟩

/-- An event summary starting January 5. -/
def evJan5 : EventSummary :=
  ⟨"g", "T", "k1", "A", "Flight", some 2024, some ("2024-01-05T00:00:00"),
    some ("2024-01-06T00:00:00"), 1⟩

/-- An event summary starting January 1, same group key. -/
def evJan1 : EventSummary :=
  ⟨"g", "T", "k2", "B", "Hotel", some 2024, some ("2024-01-01T00:00:00"),
    some ("2024-01-02T00:00:00"), 0⟩

/-- The single trip group built from evJan5 and evJan1: start is the
earlier value and the earlier member comes first. -/
def grpC8 : TripGroup :=
  ⟨"g", "T", some 2024, some ("2024-01-01T00:00:00"), some ("2024-01-06T00:00:00"),
    [evJan1, evJan5]⟩

/-! Theorems.  Helper lemmas come first, then one theorem per claim
(with witnesses and counterexamples). -/

theorem dropWhile_spaces_paren (ws t : List Char) (h : ∀ w ∈ ws, pyIsSpace w = true) :
    (ws ++ '(' :: t).dropWhile pyIsSpace = '(' :: t := by
  induction ws with
  | nil => rfl
  | cons w ws ih =>
    have hw := h w (by simp)
    simp only [List.cons_append, List.dropWhile_cons, hw, if_true]
    exact ih (fun x hx => h x (by simp [hx]))

theorem iata_from_raw_eq (s : String) (hs : s ≠ "") :
    iata_from_raw (some s) =
      (match iataStrict (pyUpper (pyStrip s)).data with
      | some code => some (aliasGet code)
      | none =>
        match (parenFindAll (pyUpper (pyStrip s)).data).getLast? with
        | some code => some (aliasGet code)
        | none => none) := by
  have hbeq : (s == "") = false := by simpa using hs
  simp [iata_from_raw, hbeq]

theorem iataStrict_bare (a b c : Char) (ha : isUp a = true) (hb : isUp b = true)
    (hc : isUp c = true) : iataStrict [a, b, c] = some (String.mk [a, b, c]) := by
  simp [iataStrict, ha, hb, hc]

theorem iataStrict_paren (a b c d e f : Char) (ws : List Char)
    (ha : isUp a = true) (hb : isUp b = true) (hc : isUp c = true)
    (hd : isUp d = true) (he : isUp e = true) (hf : isUp f = true)
    (hws : ∀ w ∈ ws, pyIsSpace w = true) :
    iataStrict (a :: b :: c :: (ws ++ ['(', d, e, f, ')'])) = some (String.mk [d, e, f]) := by
  cases ws with
  | nil =>
    have hdrop : List.dropWhile pyIsSpace ['(', d, e, f, ')'] = ['(', d, e, f, ')'] := rfl
    simp [iataStrict, ha, hb, hc, hd, he, hf, hdrop]
  | cons w ws' =>
    have hdrop := dropWhile_spaces_paren (w :: ws') (d :: e :: f :: ')' :: []) hws
    simp only [List.cons_append] at hdrop
    simp [iataStrict, ha, hb, hc, hd, he, hf, hdrop]

/-- Claim C4: iata_from_raw uppercases and trims its input, accepts the
strict shapes XXX and XXX (YYY) (with the parenthesized code preferred),
falls back to the last parenthesized three-letter code anywhere in the
string, otherwise yields no match, and applies the alias table to the
chosen code before returning; free text like Berlin Hbf yields no match. -/
theorem c4_code_extractor :
    (∀ s a b c, (pyUpper (pyStrip s)).data = [a, b, c] →
      isUp a = true → isUp b = true → isUp c = true →
      iata_from_raw (some s) = some (aliasGet (String.mk [a, b, c])))
    ∧ (∀ s a b c ws d e f,
        (pyUpper (pyStrip s)).data = a :: b :: c :: (ws ++ ['(', d, e, f, ')']) →
      isUp a = true → isUp b = true → isUp c = true →
      isUp d = true → isUp e = true → isUp f = true →
      (∀ w ∈ ws, pyIsSpace w = true) →
      iata_from_raw (some s) = some (aliasGet (String.mk [d, e, f])))
    ∧ (∀ s code, iataStrict (pyUpper (pyStrip s)).data = none →
      (parenFindAll (pyUpper (pyStrip s)).data).getLast? = some code →
      iata_from_raw (some s) = some (aliasGet code))
    ∧ (∀ s, iataStrict (pyUpper (pyStrip s)).data = none →
      parenFindAll (pyUpper (pyStrip s)).data = [] →
      iata_from_raw (some s) = none)
    ∧ iata_from_raw (some ("Berlin Hbf")) = none
    ∧ iata_from_raw (some ("..., YUC., Mexico")) = none
    ∧ iata_from_raw (some ("MNL (MNL)")) = some ("MNL")
    ∧ iata_from_raw (some ("LHR (CDG)")) = some ("CDG")
    ∧ iata_from_raw none = none := by
  refine ⟨?_, ?_, ?_, ?_, by rfl, by rfl, by rfl, by rfl, rfl⟩
  · intro s a b c h ha hb hc
    by_cases hs : s = ""
    · subst hs; simp [pyStrip, pyUpper] at h
    · rw [iata_from_raw_eq s hs, h, iataStrict_bare a b c ha hb hc]
  · intro s a b c ws d e f h ha hb hc hd he hf hws
    by_cases hs : s = ""
    · subst hs; simp [pyStrip, pyUpper] at h
    · rw [iata_from_raw_eq s hs, h, iataStrict_paren a b c d e f ws ha hb hc hd he hf hws]
  · intro s code h1 h2
    by_cases hs : s = ""
    · subst hs; simp [pyStrip, pyUpper, parenFindAll, parenFindAllFuel] at h2
    · rw [iata_from_raw_eq s hs, h1, h2]
  · intro s h1 h2
    by_cases hs : s = ""
    · subst hs; rfl
    · rw [iata_from_raw_eq s hs, h1, h2]
      rfl

/-- Witness for C4: concrete instances for the strict shape (with alias and
case folding) and for the parenthesized fallback. -/
theorem c4_witness :
    iata_from_raw (some ("txl")) = some ("BER")
    ∧ iata_from_raw (some ("to Berlin (TXL) then (SXF) airport")) = some ("BER") := by
  constructor
  · have h := c4_code_extractor.1 ("txl") 'T' 'X' 'L' rfl rfl rfl rfl
    exact h.trans (by rfl)
  · have h := c4_code_extractor.2.2.1 ("to Berlin (TXL) then (SXF) airport") ("SXF")
      (by rfl) (by rfl)
    exact h.trans (by rfl)

theorem primStep_ne (idx : Idx) (row : PrimaryRow) (k : String) (h : primCode row ≠ k) :
    primStep idx row k = idx k := by
  have hkne : ¬ k = primCode row := fun hk => h hk.symm
  by_cases h1 : (primCode row == "" || !((primCode row).length == 3)) = true
  · simp [primStep, h1]
  · cases hla : pyFloat ((row.latitude_deg).getD ("")) with
    | none => simp [primStep, h1, hla]
    | some la =>
      cases hlo : pyFloat ((row.longitude_deg).getD ("")) with
      | none => simp [primStep, h1, hla, hlo]
      | some lo => simp [primStep, h1, hla, hlo, updateIdx, hkne]

theorem secStep_ne (idx : Idx) (parts : List String) (k : String) (h : secCode parts ≠ k) :
    secStep idx parts k = idx k := by
  have hkne : ¬ k = secCode parts := fun hk => h hk.symm
  by_cases h1 : parts.length < 8
  · simp [secStep, h1]
  · by_cases h2 : (secCode parts == "" || secCode parts == "\\N"
        || !((secCode parts).length == 3)) = true
    · simp [secStep, h1, h2]
    · by_cases h3 : ((idx (secCode parts)).isSome = true)
      · simp [secStep, h1, h2, h3]
      · cases hla : pyFloat ((parts[6]?).getD ("")) with
        | none => simp [secStep, h1, h2, h3, hla]
        | some la =>
          cases hlo : pyFloat ((parts[7]?).getD ("")) with
          | none => simp [secStep, h1, h2, h3, hla, hlo]
          | some lo => simp [secStep, h1, h2, h3, hla, hlo, updateIdx, hkne]

theorem primFold_ne (rows : List PrimaryRow) (idx : Idx) (k : String)
    (h : ∀ row ∈ rows, primCode row ≠ k) : (rows.foldl primStep idx) k = idx k := by
  induction rows generalizing idx with
  | nil => rfl
  | cons row rest ih =>
    rw [List.foldl_cons, ih (primStep idx row) (fun r hr => h r (by simp [hr])),
      primStep_ne idx row k (h row (by simp))]

theorem secFold_ne (rows : List (List String)) (idx : Idx) (k : String)
    (h : ∀ parts ∈ rows, secCode parts ≠ k) : (rows.foldl secStep idx) k = idx k := by
  induction rows generalizing idx with
  | nil => rfl
  | cons parts rest ih =>
    rw [List.foldl_cons, ih (secStep idx parts) (fun r hr => h r (by simp [hr])),
      secStep_ne idx parts k (h parts (by simp))]

/-- Claim C5: the index builder skips primary rows with an empty or
non-3-character code or unparsable coordinates, skips secondary rows whose
code is the \N missing marker, never lets a secondary row overwrite a
present entry (in particular a primary one), applies manual overrides last
filling only absent codes, and an LGP present only in the manual table
survives into the final index with exactly the patched values. -/
theorem c5_airport_index :
    (∀ idx row, (primCode row = "" ∨ (primCode row).length ≠ 3
        ∨ pyFloat ((row.latitude_deg).getD ("")) = none
        ∨ pyFloat ((row.longitude_deg).getD ("")) = none) →
      primStep idx row = idx)
    ∧ (∀ idx parts, secCode parts = "\\N" → secStep idx parts = idx)
    ∧ (∀ idx parts k v, idx k = some v → secStep idx parts k = some v)
    ∧ (∀ idx k v, idx k = some v → manualStep idx k = some v)
    ∧ (∀ prim sec, (∀ row ∈ prim, primCode row ≠ "LGP") →
        (∀ parts ∈ sec, secCode parts ≠ "LGP") →
        load_iata_index prim sec "LGP"
          = some ⟨13.1575, 123.7350, "Legazpi Airport", some ("PH")⟩) := by
  refine ⟨?_, ?_, ?_, ?_, ?_⟩
  · intro idx row h
    by_cases h1 : (primCode row == "" || !((primCode row).length == 3)) = true
    · simp [primStep, h1]
    · rcases h with h | h | h | h
      · exact absurd (by simp [h]) h1
      · exact absurd (by simp [h]) h1
      · cases hlo : pyFloat ((row.longitude_deg).getD ("")) with
        | none => simp [primStep, h1, h, hlo]
        | some lo => simp [primStep, h1, h, hlo]
      · cases hla : pyFloat ((row.latitude_deg).getD ("")) with
        | none => simp [primStep, h1, hla, h]
        | some la => simp [primStep, h1, hla, h]
  · intro idx parts h
    by_cases h1 : parts.length < 8
    · simp [secStep, h1]
    · have h2 : (secCode parts == "" || secCode parts == "\\N"
          || !((secCode parts).length == 3)) = true := by simp [h]
      simp [secStep, h1, h2]
  · intro idx parts k v hv
    by_cases h1 : parts.length < 8
    · simpa [secStep, h1] using hv
    · by_cases h2 : (secCode parts == "" || secCode parts == "\\N"
          || !((secCode parts).length == 3)) = true
      · simpa [secStep, h1, h2] using hv
      · by_cases h3 : ((idx (secCode parts)).isSome = true)
        · simpa [secStep, h1, h2, h3] using hv
        · have hkne : ¬ k = secCode parts := by
            intro hk
            apply h3
            rw [← hk, hv]
            rfl
          cases hla : pyFloat ((parts[6]?).getD ("")) with
          | none => simpa [secStep, h1, h2, h3, hla] using hv
          | some la =>
            cases hlo : pyFloat ((parts[7]?).getD ("")) with
            | none => simpa [secStep, h1, h2, h3, hla, hlo] using hv
            | some lo => simpa [secStep, h1, h2, h3, hla, hlo, updateIdx, hkne] using hv
  · intro idx k v hv
    show (if (idx ("LGP")).isSome then idx
      else updateIdx idx ("LGP") ⟨13.1575, 123.7350, "Legazpi Airport", some ("PH")⟩) k = some v
    by_cases h1 : ((idx ("LGP")).isSome = true)
    · simpa [h1] using hv
    · have hk : ¬ k = "LGP" := by
        intro hk
        apply h1
        rw [← hk, hv]
        rfl
      simpa [h1, updateIdx, hk] using hv
  · intro prim sec hp hs
    have h2 : (sec.foldl secStep (prim.foldl primStep (fun _ => none))) "LGP" = none := by
      rw [secFold_ne sec _ "LGP" hs, primFold_ne prim _ "LGP" hp]
    show manualStep (sec.foldl secStep (prim.foldl primStep (fun _ => none))) "LGP" = _
    show (if ((sec.foldl secStep (prim.foldl primStep (fun _ => none))) ("LGP")).isSome then _
      else updateIdx _ ("LGP") ⟨13.1575, 123.7350, "Legazpi Airport", some ("PH")⟩) "LGP" = _
    rw [if_neg (by rw [h2]; simp)]
    simp [updateIdx]

/-- Witness for C5: every conjunct applied at concrete rows and indexes. -/
theorem c5_witness :
    primStep (fun _ => none) ⟨some ("ZZZZ"), some ("1"), some ("2"), none, none⟩ = (fun _ => none)
    ∧ secStep (fun _ => none)
        [("1"), ("N"), ("C"), ("X"), ("\\N"), ("I"), ("3"), ("4")] = (fun _ => none)
    ∧ secStep (fun k => if k == "AAA" then some ⟨1, 2, "A", none⟩ else none)
        [("1"), ("N"), ("C"), ("X"), ("AAA"), ("I"), ("3"), ("4")] "AAA" = some ⟨1, 2, "A", none⟩
    ∧ manualStep (fun k => if k == "LGP" then some ⟨1, 2, "A", none⟩ else none) "LGP"
        = some ⟨1, 2, "A", none⟩
    ∧ load_iata_index [⟨some ("aaa"), some ("1"), some ("2"), some ("A"), none⟩] [] "LGP"
        = some ⟨13.1575, 123.7350, "Legazpi Airport", some ("PH")⟩ := by
  refine ⟨?_, ?_, ?_, ?_, ?_⟩
  · exact c5_airport_index.1 _ _ (Or.inr (Or.inl (by decide)))
  · exact c5_airport_index.2.1 _ _ (by decide)
  · exact c5_airport_index.2.2.1 _ _ ("AAA") _ (by rfl)
  · exact c5_airport_index.2.2.2.1 _ ("LGP") _ (by rfl)
  · exact c5_airport_index.2.2.2.2 _ _
      (by intro row hr; simp only [List.mem_singleton] at hr; subst hr; decide)
      (by intro parts hp; simp at hp)

theorem pyStrptime_tz (b : Bool) (s : String) (d : DateTime)
    (h : pyStrptime b s = some d) : d.tzOffsetMin = none := by
  unfold pyStrptime at h
  split at h
  · exact absurd h (by simp)
  · split at h
    · split at h
      · split at h
        · rw [← Option.some_inj.mp h]
        · exact absurd h (by simp)
      · exact absurd h (by simp)
    · split at h
      · split at h
        · rw [← Option.some_inj.mp h]
        · exact absurd h (by simp)
      · exact absurd h (by simp)

/-- Claim C7: parse_dt accepts the fractional timestamp format with a
fallback to the fraction-less form, returns None (never raising) on any
other input including empty and missing values, and attaches the timezone
to the parsed value by database lookup of the identifier when a truthy one
is provided, else leaves it naive. -/
theorem c7_parse_dt :
    (∀ tzdb, parse_dt tzdb (some ("2024-03-01 08:15:00.000000")) none
        = some ⟨2024, 3, 1, 8, 15, 0, 0, none⟩)
    ∧ (∀ tzdb, parse_dt tzdb (some ("2024-03-01 08:15:00")) none
        = some ⟨2024, 3, 1, 8, 15, 0, 0, none⟩)
    ∧ (∀ tzdb tzid, parse_dt tzdb (some ("not-a-date")) tzid = none)
    ∧ (∀ tzdb tzid, parse_dt tzdb none tzid = none)
    ∧ (∀ tzdb tzid, parse_dt tzdb (some ("")) tzid = none)
    ∧ (∀ tzdb s z d, parse_dt tzdb (some s) none = some d → z ≠ "" →
        parse_dt tzdb (some s) (some z) = some { d with tzOffsetMin := tzdb z })
    ∧ (∀ tzdb s d, parse_dt tzdb (some s) none = some d → d.tzOffsetMin = none) := by
  refine ⟨fun tzdb => rfl, fun tzdb => rfl, fun tzdb tzid => rfl, fun tzdb tzid => rfl,
    fun tzdb tzid => rfl, ?_, ?_⟩
  · intro tzdb s z d h hz
    simp only [parse_dt] at h ⊢
    by_cases hs : (s == "") = true
    · rw [if_pos hs] at h
      exact absurd h (by simp)
    · rw [if_neg hs] at h ⊢
      revert h
      cases hbase : parseBase (pyStrip s) with
      | none =>
        intro h
        exact absurd h (by simp)
      | some dt =>
        intro h
        have hd : dt = d := by simpa using h
        subst hd
        simp [hz]
  · intro tzdb s d h
    simp only [parse_dt] at h
    by_cases hs : (s == "") = true
    · rw [if_pos hs] at h
      exact absurd h (by simp)
    · rw [if_neg hs] at h
      revert h
      cases hbase : parseBase (pyStrip s) with
      | none =>
        intro h
        exact absurd h (by simp)
      | some dt =>
        intro h
        have hd : dt = d := by simpa using h
        have htz : dt.tzOffsetMin = none := by
          unfold parseBase at hbase
          revert hbase
          cases h1 : pyStrptime true (pyStrip s) with
          | some dt1 =>
            intro hbase
            have h2 : dt1 = dt := by simpa using hbase
            exact h2 ▸ pyStrptime_tz true (pyStrip s) dt1 h1
          | none =>
            intro hbase
            have h2 : pyStrptime false (pyStrip s) = some dt := by simpa using hbase
            exact pyStrptime_tz false (pyStrip s) dt h2
        rw [← hd]
        exact htz

/-- Witness for C7: the timezone-attachment conjunct applied at a concrete
timestamp and database. -/
theorem c7_witness :
    parse_dt (fun z => if z == "Europe/Berlin" then some 60 else none)
        (some ("2024-03-01 08:15:00")) (some ("Europe/Berlin"))
      = some ⟨2024, 3, 1, 8, 15, 0, 0, some 60⟩ := by
  have h := c7_parse_dt.2.2.2.2.2.1
    (fun z => if z == "Europe/Berlin" then some 60 else none)
    ("2024-03-01 08:15:00") ("Europe/Berlin") ⟨2024, 3, 1, 8, 15, 0, 0, none⟩
    (c7_parse_dt.2.1 (fun z => if z == "Europe/Berlin" then some 60 else none))
    (by decide)
  exact h.trans (by rfl)


theorem goSegs_spec (tzdb : String → Option Int) (idx : Idx) (gk nm t tk : String)
    (l : List RawSeg) : ∀ (st st' : EvState),
    goSegs tzdb idx gk nm t tk l st = .ok st' →
    st'.seg_count = st.seg_count + l.length
    ∧ st'.segs = st.segs ++ l.filterMap (mkSeg tzdb idx gk nm t tk) := by
  induction l with
  | nil =>
    intro st st' h
    have hst : st = st' := by simpa [goSegs] using h
    subst hst
    simp
  | cons seg rest ih =>
    intro st st' h
    simp only [goSegs] at h
    split at h
    · exact absurd h (by simp)
    · split at h
      · exact absurd h (by simp)
      · split at h
        · rename_i hmk
          obtain ⟨hc, hs⟩ := ih _ _ h
          simp only at hc hs
          constructor
          · rw [hc]
            simp only [List.length_cons]
            omega
          · rw [hs, List.filterMap_cons_none hmk]
        · rename_i srec hmk
          obtain ⟨hc, hs⟩ := ih _ _ h
          simp only at hc hs
          constructor
          · rw [hc]
            simp only [List.length_cons]
            omega
          · rw [hs, List.filterMap_cons_some hmk]
            simp

theorem processEvent_spec (tzdb : String → Option Int) (idx : Idx) (gk nm stem : String)
    (i : Nat) (ev : TripEvent) (segs segs' : List SegmentRecord) (osum : Option EventSummary)
    (hhot : hotelShortcut ev = false)
    (h : processEvent tzdb idx gk nm stem i ev segs = .ok (segs', osum)) :
    segs' = segs ++ (ev.legs.flatMap Leg.segments).filterMap
      (mkSeg tzdb idx gk nm (pyOrD ev.UIDescription ("Other")) (tripKeyStr stem i ev))
    ∧ (osum.isSome ↔ (ev.legs.flatMap Leg.segments).length ≠ 0)
    ∧ (∀ e, osum = some e → e.tripKey = tripKeyStr stem i ev ∧ e.tripGroupKey = gk) := by
  simp only [processEvent, hhot, Bool.false_eq_true, if_false] at h
  split at h
  · exact absurd h (by simp)
  · rename_i st hgo
    obtain ⟨hc, hs⟩ := goSegs_spec tzdb idx gk nm _ _ _ _ _ hgo
    rw [show (⟨0, none, none, none, segs⟩ : EvState).seg_count = 0 from rfl] at hc
    rw [show (⟨0, none, none, none, segs⟩ : EvState).segs = segs from rfl] at hs
    split at h
    · rename_i hpos
      have h' : (st.segs, (some
          { tripGroupKey := gk, tripName := nm, tripKey := tripKeyStr stem i ev,
            title := pyOrD st.title_guess (pyOrD ev.UIDescription ("Other") ++ " trip"),
            type := pyOrD ev.UIDescription ("Other"),
            year := st.start_dt.map DateTime.year, start := dt_iso st.start_dt,
            end_ := dt_iso st.end_dt,
            segmentCount := (st.segs.filter
              (fun s => s.trip_key == tripKeyStr stem i ev)).length } : Option EventSummary))
          = (segs', osum) := by
        simpa using h
      obtain ⟨h1, h2⟩ := Prod.mk.inj h'
      refine ⟨by rw [← h1, hs], ?_, ?_⟩
      · rw [← h2]
        simp only [Option.isSome_some, true_iff]
        omega
      · intro e he
        rw [← h2] at he
        have he' := Option.some_inj.mp he
        rw [← he']
        exact ⟨rfl, rfl⟩
    · rename_i hpos
      have h' : ((st.segs, (none : Option EventSummary)) : List SegmentRecord × Option EventSummary)
          = (segs', osum) := by simpa using h
      obtain ⟨h1, h2⟩ := Prod.mk.inj h'
      refine ⟨by rw [← h1, hs], ?_, ?_⟩
      · rw [← h2]
        simp only [Option.isSome_none, Bool.false_eq_true, false_iff, ne_eq, not_not]
        omega
      · intro e he
        rw [← h2] at he
        exact absurd he (by simp)

/-- Claim C1 (amended): for a trip event not taken by the lodging shortcut,
an EventSummary is emitted precisely when the event carries at least one
raw segment, whether or not any of them survives coordinate resolution. -/
theorem c1_summary_emission (tzdb : String → Option Int) (idx : Idx) (gk nm stem : String)
    (i : Nat) (ev : TripEvent) (segs segs' : List SegmentRecord) (osum : Option EventSummary)
    (hhot : hotelShortcut ev = false)
    (h : processEvent tzdb idx gk nm stem i ev segs = .ok (segs', osum)) :
    osum.isSome ↔ (ev.legs.flatMap Leg.segments).length ≠ 0 :=
  (processEvent_spec tzdb idx gk nm stem i ev segs segs' osum hhot h).2.1

/-- Counterexample to C1 as stated: a transport event whose only segment
fails coordinate resolution still produces an EventSummary (with
segmentCount 0), while the claim says it produces none at all. -/
theorem c1_counterexample :
    collect_segments tzdb0 idx0 [fileC1] = .ok ([], [sumC1])
    ∧ sumC1.segmentCount = 0 := by
  exact ⟨by rfl, by rfl⟩

/-- Witness for C1: the amended equivalence applied at the concrete input. -/
theorem c1_witness :
    (some sumC1).isSome ↔ ((evC1.legs.flatMap Leg.segments).length ≠ 0) :=
  c1_summary_emission tzdb0 idx0 ("a") ("a") ("a") 0 evC1 [] [] (some sumC1)
    (by rfl) (by rfl)

/-- Claim C2 (amended): an unparsable document is skipped whole and an
unparsable date is treated as absent, but the run is not total: a lodging
event whose latitude fails numeric conversion aborts the whole run (see
c2_counterexample). -/
theorem c2_error_containment :
    (∀ tzdb idx stem rest segs,
      goFiles tzdb idx (⟨stem, none⟩ :: rest) segs = goFiles tzdb idx rest segs)
    ∧ (∀ tzdb s tzid, parseBase (pyStrip s) = none → parse_dt tzdb (some s) tzid = none) := by
  refine ⟨fun tzdb idx stem rest segs => rfl, ?_⟩
  intro tzdb s tzid h
  by_cases hs : (s == "") = true
  · simp only [parse_dt, if_pos hs]
  · simp only [parse_dt, if_neg hs, h]

/-- Counterexample to C2 as stated: one malformed lodging record (latitude
the string abc) raises ValueError out of the whole run instead of being
dropped alone. -/
theorem c2_counterexample :
    collect_segments tzdb0 idx0 [fileC2] = .error ("ValueError") := by rfl

/-- Witness for C2: the skip equation and the absent-date conjunct applied
at concrete inputs. -/
theorem c2_witness :
    goFiles tzdb0 idx0 [⟨"bad", none⟩] [] = goFiles tzdb0 idx0 [] []
    ∧ parse_dt tzdb0 (some ("not-a-date")) none = none :=
  ⟨c2_error_containment.1 tzdb0 idx0 ("bad") [] [],
    c2_error_containment.2 tzdb0 ("not-a-date") none (by rfl)⟩

theorem processEvent_hotel (tzdb : String → Option Int) (idx : Idx) (gk nm stem : String)
    (i : Nat) (ev : TripEvent) (segs : List SegmentRecord) (qa qb : ℚ)
    (ht : pyLower (pyOrD ev.UIDescription ("Other")) = "hotel")
    (hla : ev.address.bind Address.latitude = some (.vnum qa))
    (hlo : ev.address.bind Address.longitude = some (.vnum qb)) :
    processEvent tzdb idx gk nm stem i ev segs = .ok (segs, some
      { tripGroupKey := gk, tripName := nm, tripKey := tripKeyStr stem i ev,
        title := pyOrD (ev.address.bind Address.locationName)
          (pyOrD (ev.address.bind Address.rawAddress) ("Hotel")),
        type := "Hotel", year := (parse_dt tzdb ev.venueStartDate none).map DateTime.year,
        start := dt_iso (parse_dt tzdb ev.venueStartDate none),
        end_ := dt_iso (parse_dt tzdb ev.venueEndDate none), segmentCount := 0 }) := by
  have hshort : hotelShortcut ev = true := by
    simp [hotelShortcut, ht, hla]
  simp [processEvent, hshort, hla, hlo, floatJ]

theorem processEvent_hotel_nolat (tzdb : String → Option Int) (idx : Idx) (gk nm stem : String)
    (i : Nat) (ev : TripEvent) (segs : List SegmentRecord)
    (hla : ev.address.bind Address.latitude = none)
    (hlegs : ev.legs = []) :
    processEvent tzdb idx gk nm stem i ev segs = .ok (segs, none) := by
  have hshort : hotelShortcut ev = false := by
    simp [hotelShortcut, hla]
  simp [processEvent, hshort, hlegs, goSegs]

/-- Claim C3 (amended): a lodging event whose address carries direct
numeric coordinates yields exactly one EventSummary with segmentCount 0
and no Segment; but a lodging event without a direct latitude does not
take the shortcut, and with no legs it produces no summary at all (the
spec's location-less summary is not emitted; see c3_counterexample). -/
theorem c3_lodging (tzdb : String → Option Int) (idx : Idx) (gk nm stem : String)
    (i : Nat) (ev : TripEvent) (segs : List SegmentRecord) :
    (∀ qa qb, pyLower (pyOrD ev.UIDescription ("Other")) = "hotel" →
      ev.address.bind Address.latitude = some (.vnum qa) →
      ev.address.bind Address.longitude = some (.vnum qb) →
      ∃ s, processEvent tzdb idx gk nm stem i ev segs = .ok (segs, some s)
        ∧ s.segmentCount = 0 ∧ s.type = "Hotel")
    ∧ (ev.address.bind Address.latitude = none → ev.legs = [] →
      processEvent tzdb idx gk nm stem i ev segs = .ok (segs, none)) := by
  constructor
  · intro qa qb ht hla hlo
    exact ⟨_, processEvent_hotel tzdb idx gk nm stem i ev segs qa qb ht hla hlo, rfl, rfl⟩
  · intro hla hlegs
    exact processEvent_hotel_nolat tzdb idx gk nm stem i ev segs hla hlegs

/-- Counterexample to C3 as stated: a lodging event with no resolvable
coordinates (and no legs) is not summarized at all, while the claim says
it is still summarized location-less. -/
theorem c3_counterexample :
    collect_segments tzdb0 idx0 [fileC3] = .ok ([], []) := by rfl

/-- Witness for C3: the lodging shortcut applied at a concrete hotel event
with direct numeric coordinates. -/
theorem c3_witness :
    ∃ s, processEvent tzdb0 idx0 ("g") ("n") ("g") 0
        (⟨some ("Hotel"), none, some addrA, none, none, []⟩ : TripEvent) []
      = .ok ([], some s) ∧ s.segmentCount = 0 ∧ s.type = "Hotel" :=
  (c3_lodging tzdb0 idx0 ("g") ("n") ("g") 0
      ⟨some ("Hotel"), none, some addrA, none, none, []⟩ []).1 1 2
    (by rfl) (by rfl) (by rfl)

/-- Claim C6 (amended): a segment with an unresolved endpoint is never
emitted: the emitted segments of an event are exactly those raw segments
on which mkSeg succeeds (so every emitted Segment carries all four
coordinates); one resolvable plus one unresolvable segment yield exactly
one Segment and a summary with segmentCount 1 — though the discarded
segment's timestamps still feed the summary's date range. -/
theorem c6_segment_discard :
    (∀ tzdb idx gk nm t tk l st st', goSegs tzdb idx gk nm t tk l st = .ok st' →
      st'.segs = st.segs ++ l.filterMap (mkSeg tzdb idx gk nm t tk))
    ∧ collect_segments tzdb0 idx0 [fileC6] = .ok ([segC6], [sumC6])
    ∧ sumC6.segmentCount = 1 := by
  refine ⟨?_, by rfl, by rfl⟩
  intro tzdb idx gk nm t tk l st st' h
  exact (goSegs_spec tzdb idx gk nm t tk l st st' h).2

/-- Counterexample to C6 as stated: the discarded segment segUnres does
contribute to the output — the emitted summary's year and start come from
its departure date while the surviving segment has no dates at all. -/
theorem c6_counterexample :
    collect_segments tzdb0 idx0 [fileC6] = .ok ([segC6], [sumC6])
    ∧ segC6.departure = none ∧ segC6.arrival = none
    ∧ sumC6.start = some ("2020-01-01T00:00:00") ∧ sumC6.year = some 2020 := by
  exact ⟨by rfl, rfl, rfl, rfl, rfl⟩

/-- Witness for C6: the filterMap characterization applied at the concrete
two-segment event. -/
theorem c6_witness :
    (⟨2, some ⟨2020, 1, 1, 0, 0, 0, 0, none⟩, none, some ("CityA → CityB"),
        [segC6]⟩ : EvState).segs
      = ([] : List SegmentRecord)
        ++ [segRes, segUnres].filterMap (mkSeg tzdb0 idx0 ("s") ("s") ("Flight") ("s:0")) :=
  c6_segment_discard.1 tzdb0 idx0 ("s") ("s") ("Flight") ("s:0") [segRes, segUnres]
    ⟨0, none, none, none, []⟩ _ (by rfl)

/-- Claim C10: an endpoint resolved through code extraction and index
lookup keeps its label when the code already occurs in it and otherwise
gets the code appended in parentheses; an endpoint with direct coordinates
keeps its label unchanged. -/
theorem c10_label_decoration :
    (∀ idx oaddr dflt a b oraw, coords_from_address oaddr = (some a, some b, oraw) →
      resolveSide idx oaddr dflt = (some a, some b, endpointLabel oaddr oraw dflt))
    ∧ (∀ idx oaddr dflt oraw code rec, coords_from_address oaddr = (none, none, oraw) →
      iata_from_raw oraw = some code → code ≠ "" → idx code = some rec →
      endpointLabel oaddr oraw dflt ≠ "" →
      hasSub (endpointLabel oaddr oraw dflt) code = false →
      resolveSide idx oaddr dflt
        = (some rec.lat, some rec.lon, endpointLabel oaddr oraw dflt ++ " (" ++ code ++ ")"))
    ∧ (∀ idx oaddr dflt oraw code rec, coords_from_address oaddr = (none, none, oraw) →
      iata_from_raw oraw = some code → code ≠ "" → idx code = some rec →
      endpointLabel oaddr oraw dflt ≠ "" →
      hasSub (endpointLabel oaddr oraw dflt) code = true →
      resolveSide idx oaddr dflt = (some rec.lat, some rec.lon, endpointLabel oaddr oraw dflt)) := by
  refine ⟨?_, ?_, ?_⟩
  · intro idx oaddr dflt a b oraw hc
    simp [resolveSide, hc]
  · intro idx oaddr dflt oraw code rec hc hiata hcode hidx hlbl hsub
    simp [resolveSide, hc, hiata, hcode, hidx, hlbl, hsub]
  · intro idx oaddr dflt oraw code rec hc hiata hcode hidx hlbl hsub
    simp [resolveSide, hc, hiata, hcode, hidx, hlbl, hsub]

/-- Witness for C10: decoration of a code-resolved label and preservation
of a direct-coordinate label, at concrete addresses. -/
theorem c10_witness :
    resolveSide (fun c => if c == "BER" then some ⟨52, 13, "Berlin", some ("DE")⟩ else none)
        (some ⟨none, none, none, some ("TXL"), none⟩) ("Departure")
      = (some 52, some 13, "TXL (BER)")
    ∧ resolveSide idx0 (some addrA) ("Departure") = (some 1, some 2, "CityA") := by
  constructor
  · have h := c10_label_decoration.2.1
      (fun c => if c == "BER" then some ⟨52, 13, "Berlin", some ("DE")⟩ else none)
      (some ⟨none, none, none, some ("TXL"), none⟩) ("Departure")
      (some ("TXL")) ("BER") ⟨52, 13, "Berlin", some ("DE")⟩
      (by rfl) (by rfl) (by decide) (by rfl) (by decide) (by rfl)
    exact h.trans (by rfl)
  · have h := c10_label_decoration.1 idx0 (some addrA) ("Departure") 1 2 none (by rfl)
    exact h.trans (by rfl)


theorem chLt_irrefl (l : List Char) : charListLt l l = false := by
  induction l with
  | nil => rfl
  | cons a as ih => simp [charListLt, lt_irrefl, ih]

theorem chEq_of_not_lt {a b : Char} (h1 : ¬ a < b) (h2 : ¬ b < a) : a = b :=
  le_antisymm (le_of_not_lt h2) (le_of_not_lt h1)

theorem chLt_trans : ∀ {a b c : List Char},
    charListLt a b = true → charListLt b c = true → charListLt a c = true := by
  intro a
  induction a with
  | nil =>
    intro b c h1 h2
    cases b with
    | nil => simp [charListLt] at h1
    | cons y ys =>
      cases c with
      | nil => simp [charListLt] at h2
      | cons z zs => rfl
  | cons x xs ih =>
    intro b c h1 h2
    cases b with
    | nil => simp [charListLt] at h1
    | cons y ys =>
      cases c with
      | nil => simp [charListLt] at h2
      | cons z zs =>
        simp only [charListLt] at h1 h2 ⊢
        by_cases hxy : x < y
        · by_cases hyz : y < z
          · simp [lt_trans hxy hyz]
          · by_cases hzy : z < y
            · simp [hyz, hzy] at h2
            · have hyzeq : y = z := chEq_of_not_lt hyz hzy
              subst hyzeq
              simp [hxy]
        · by_cases hyx : y < x
          · simp [hxy, hyx] at h1
          · have hxyeq : x = y := chEq_of_not_lt hxy hyx
            subst hxyeq
            simp only [lt_irrefl, if_false] at h1 ⊢
            by_cases hxz : x < z
            · simp [hxz]
            · by_cases hzx : z < x
              · simp [hxz, hzx] at h2
              · have hxzeq : x = z := chEq_of_not_lt hxz hzx
                subst hxzeq
                simp only [lt_irrefl, if_false] at h2 ⊢
                exact ih h1 h2

theorem chLt_conn : ∀ {a b : List Char},
    charListLt a b = false → charListLt b a = false → a = b := by
  intro a
  induction a with
  | nil =>
    intro b h1 h2
    cases b with
    | nil => rfl
    | cons y ys => simp [charListLt] at h1
  | cons x xs ih =>
    intro b h1 h2
    cases b with
    | nil => simp [charListLt] at h2
    | cons y ys =>
      simp only [charListLt] at h1 h2
      by_cases hxy : x < y
      · simp [hxy] at h1
      · by_cases hyx : y < x
        · simp [hxy, hyx] at h2
        · have hxyeq : x = y := chEq_of_not_lt hxy hyx
          subst hxyeq
          simp only [lt_irrefl, if_false] at h1 h2
          rw [ih h1 h2]

theorem chLt_asymm {a b : List Char} (h : charListLt a b = true) : charListLt b a = false := by
  by_contra hba
  rw [Bool.not_eq_false] at hba
  have := chLt_trans h hba
  rw [chLt_irrefl] at this
  exact absurd this (by simp)

theorem strLt_irrefl (s : String) : strLt s s = false := chLt_irrefl s.data

theorem strLe_refl (s : String) : strLe s s = true := by
  simp [strLe, strLt_irrefl]

theorem strLe_total (a b : String) : strLe a b = true ∨ strLe b a = true := by
  by_cases h : charListLt b.data a.data = true
  · right
    simp [strLe, strLt, chLt_asymm h]
  · left
    simp only [strLe, strLt]
    rw [Bool.not_eq_true] at h
    simp [h]

theorem strLe_trans {a b c : String} (h1 : strLe a b = true) (h2 : strLe b c = true) :
    strLe a c = true := by
  simp only [strLe, strLt, Bool.not_eq_true'] at h1 h2 ⊢
  by_contra hca
  rw [Bool.not_eq_false] at hca
  by_cases hcb : charListLt c.data b.data = true
  · rw [hcb] at h2
    exact absurd h2 (by simp)
  · rw [Bool.not_eq_true] at hcb
    by_cases hbc : charListLt b.data c.data = true
    · have hba := chLt_trans hbc hca
      rw [hba] at h1
      exact absurd h1 (by simp)
    · rw [Bool.not_eq_true] at hbc
      have hbceq : b.data = c.data := chLt_conn hbc hcb
      rw [← hbceq] at hca
      rw [hca] at h1
      exact absurd h1 (by simp)

theorem strLt_le_le {a b c : String} (h1 : strLt a b = true) (h2 : strLe b c = true) :
    strLe a c = true := by
  simp only [strLe, strLt, Bool.not_eq_true'] at h2 ⊢
  by_contra hca
  rw [Bool.not_eq_false] at hca
  have := chLt_trans hca h1
  rw [this] at h2
  exact absurd h2 (by simp)

theorem strLe_lt_le {a b c : String} (h1 : strLe a b = true) (h2 : strLt b c = true) :
    strLe a c = true := by
  simp only [strLe, strLt, Bool.not_eq_true'] at h1 ⊢
  by_contra hca
  rw [Bool.not_eq_false] at hca
  have := chLt_trans h2 hca
  rw [this] at h1
  exact absurd h1 (by simp)

theorem insertS_mem {α : Type} (le : α → α → Bool) (x a : α) (l : List α) :
    a ∈ insertS le x l ↔ a = x ∨ a ∈ l := by
  induction l with
  | nil => simp [insertS]
  | cons y ys ih =>
    simp only [insertS]
    by_cases hle : le y x = true
    · rw [if_pos hle]
      simp only [List.mem_cons, ih]
      tauto
    · rw [if_neg hle]
      exact List.mem_cons

theorem insertS_filter_len {α : Type} (le : α → α → Bool) (p : α → Bool) (x : α) (l : List α) :
    ((insertS le x l).filter p).length
      = (l.filter p).length + (if p x = true then 1 else 0) := by
  induction l with
  | nil => cases hx : p x <;> simp [insertS, List.filter, hx]
  | cons y ys ih =>
    simp only [insertS]
    by_cases hle : le y x = true
    · rw [if_pos hle]
      cases hy : p y <;> simp [List.filter, hy, ih] <;> omega
    · rw [if_neg hle]
      cases hy : p y <;> cases hx : p x <;> simp [List.filter, hy, hx] <;> omega

theorem pySorted_filter_aux {α : Type} (le : α → α → Bool) (p : α → Bool) :
    ∀ (l acc : List α),
    ((l.foldl (fun a x => insertS le x a) acc).filter p).length
      = (acc.filter p).length + (l.filter p).length := by
  intro l
  induction l with
  | nil => simp
  | cons x xs ih =>
    intro acc
    rw [List.foldl_cons, ih (insertS le x acc), insertS_filter_len]
    cases hx : p x <;> simp [List.filter, hx] <;> omega

theorem pySorted_filter_len {α : Type} (le : α → α → Bool) (p : α → Bool) (l : List α) :
    ((pySorted le l).filter p).length = (l.filter p).length := by
  unfold pySorted
  rw [pySorted_filter_aux]
  simp

theorem pySorted_mem_aux {α : Type} (le : α → α → Bool) (a : α) :
    ∀ (l acc : List α),
    (a ∈ l.foldl (fun ac x => insertS le x ac) acc ↔ a ∈ acc ∨ a ∈ l) := by
  intro l
  induction l with
  | nil => simp
  | cons x xs ih =>
    intro acc
    rw [List.foldl_cons, ih (insertS le x acc), insertS_mem]
    simp only [List.mem_cons]
    tauto

theorem pySorted_mem {α : Type} (le : α → α → Bool) (a : α) (l : List α) :
    a ∈ pySorted le l ↔ a ∈ l := by
  unfold pySorted
  rw [pySorted_mem_aux]
  simp

theorem insertS_pairwise {α : Type} (le : α → α → Bool)
    (htot : ∀ a b, le a b = true ∨ le b a = true)
    (htr : ∀ a b c, le a b = true → le b c = true → le a c = true)
    (x : α) (l : List α) (hl : List.Pairwise (fun a b => le a b = true) l) :
    List.Pairwise (fun a b => le a b = true) (insertS le x l) := by
  induction l with
  | nil => simp [insertS]
  | cons y ys ih =>
    cases hl with
    | cons hy hys =>
      simp only [insertS]
      by_cases hle : le y x = true
      · rw [if_pos hle]
        refine List.Pairwise.cons ?_ (ih hys)
        intro b hb
        rw [insertS_mem] at hb
        rcases hb with rfl | hb
        · exact hle
        · exact hy b hb
      · rw [if_neg hle]
        have hxy : le x y = true := (htot x y).resolve_right hle
        refine List.Pairwise.cons ?_ (List.Pairwise.cons hy hys)
        intro b hb
        rcases List.mem_cons.mp hb with rfl | hb
        · exact hxy
        · exact htr x y b hxy (hy b hb)

theorem pySorted_pairwise {α : Type} (le : α → α → Bool)
    (htot : ∀ a b, le a b = true ∨ le b a = true)
    (htr : ∀ a b c, le a b = true → le b c = true → le a c = true)
    (l : List α) : List.Pairwise (fun a b => le a b = true) (pySorted le l) := by
  unfold pySorted
  have haux : ∀ (l acc : List α), List.Pairwise (fun a b => le a b = true) acc →
      List.Pairwise (fun a b => le a b = true)
        (l.foldl (fun ac x => insertS le x ac) acc) := by
    intro l
    induction l with
    | nil => intro acc h; simpa using h
    | cons x xs ih =>
      intro acc h
      rw [List.foldl_cons]
      exact ih (insertS le x acc) (insertS_pairwise le htot htr x acc h)
  exact haux l [] (by simp)

theorem leEv_total (a b : EventSummary) : leEv a b = true ∨ leEv b a = true :=
  strLe_total _ _

theorem leEv_trans (a b c : EventSummary) (h1 : leEv a b = true) (h2 : leEv b c = true) :
    leEv a c = true := strLe_trans h1 h2

theorem leTG_total (a b : TripGroup) : leTG a b = true ∨ leTG b a = true :=
  strLe_total _ _

theorem leTG_trans (a b c : TripGroup) (h1 : leTG a b = true) (h2 : leTG b c = true) :
    leTG a c = true := strLe_trans h1 h2


theorem updStart_events (g : TripGroup) (e : EventSummary) :
    (updStart g e).events = g.events := by
  unfold updStart; split <;> rfl

theorem updStart_end (g : TripGroup) (e : EventSummary) :
    (updStart g e).end_ = g.end_ := by
  unfold updStart; split <;> rfl

theorem updStart_year (g : TripGroup) (e : EventSummary) :
    (updStart g e).year = g.year := by
  unfold updStart; split <;> rfl

theorem updStart_key (g : TripGroup) (e : EventSummary) :
    (updStart g e).tripGroupKey = g.tripGroupKey := by
  unfold updStart; split <;> rfl

theorem updEnd_events (g : TripGroup) (e : EventSummary) :
    (updEnd g e).events = g.events := by
  unfold updEnd; split <;> rfl

theorem updEnd_start (g : TripGroup) (e : EventSummary) :
    (updEnd g e).start = g.start := by
  unfold updEnd; split <;> rfl

theorem updEnd_year (g : TripGroup) (e : EventSummary) :
    (updEnd g e).year = g.year := by
  unfold updEnd; split <;> rfl

theorem updEnd_key (g : TripGroup) (e : EventSummary) :
    (updEnd g e).tripGroupKey = g.tripGroupKey := by
  unfold updEnd; split <;> rfl

theorem updYear_events (g : TripGroup) (e : EventSummary) :
    (updYear g e).events = g.events := by
  unfold updYear; split <;> rfl

theorem updYear_start (g : TripGroup) (e : EventSummary) :
    (updYear g e).start = g.start := by
  unfold updYear; split <;> rfl

theorem updYear_end (g : TripGroup) (e : EventSummary) :
    (updYear g e).end_ = g.end_ := by
  unfold updYear; split <;> rfl

theorem updYear_key (g : TripGroup) (e : EventSummary) :
    (updYear g e).tripGroupKey = g.tripGroupKey := by
  unfold updYear; split <;> rfl

theorem updateG_events (g : TripGroup) (e : EventSummary) :
    (updateG g e).events = g.events ++ [e] := by
  unfold updateG
  rw [updYear_events, updEnd_events, updStart_events]

theorem updateG_key (g : TripGroup) (e : EventSummary) :
    (updateG g e).tripGroupKey = g.tripGroupKey := by
  unfold updateG
  rw [updYear_key, updEnd_key, updStart_key]

theorem updStart_bound (g : TripGroup) (e : EventSummary) (E : List EventSummary)
    (hb : ∀ x ∈ E, pyT x.start = true →
      pyT g.start = true ∧ strLe (g.start.getD ("")) (x.start.getD ("")) = true)
    (ha : pyT g.start = true → ∃ x ∈ E, x.start = g.start) :
    (∀ x ∈ E ++ [e], pyT x.start = true →
      pyT (updStart g e).start = true
      ∧ strLe ((updStart g e).start.getD ("")) (x.start.getD ("")) = true)
    ∧ (pyT (updStart g e).start = true → ∃ x ∈ E ++ [e], x.start = (updStart g e).start) := by
  unfold updStart
  by_cases c : (pyT e.start
      && (!(pyT g.start) || strLt (e.start.getD ("")) (g.start.getD ("")))) = true
  · rw [if_pos c]
    obtain ⟨hT, hrest⟩ := (Bool.and_eq_true _ _) ▸ c
    constructor
    · intro x hx hxT
      rcases List.mem_append.mp hx with hx | hx
      · obtain ⟨hgT, hgle⟩ := hb x hx hxT
        refine ⟨hT, ?_⟩
        rcases (Bool.or_eq_true _ _) ▸ hrest with hng | hlt
        · rw [hgT] at hng
          exact absurd hng (by simp)
        · exact strLt_le_le hlt hgle
      · have hxe : x = e := by simpa using hx
        subst hxe
        exact ⟨hT, strLe_refl _⟩
    · intro _
      exact ⟨e, by simp, rfl⟩
  · rw [if_neg c]
    constructor
    · intro x hx hxT
      rcases List.mem_append.mp hx with hx | hx
      · exact hb x hx hxT
      · have hxe : x = e := by simpa using hx
        subst hxe
        have hX : (!(pyT g.start) || strLt (x.start.getD ("")) (g.start.getD (""))) = false := by
          simp only [hxT, Bool.true_and] at c
          exact Bool.not_eq_true _ ▸ Bool.of_not_eq_true c
        obtain ⟨hg, hnl⟩ := Bool.or_eq_false_iff.mp hX
        refine ⟨by simpa using hg, ?_⟩
        simp [strLe, hnl]
    · intro hgT
      obtain ⟨x, hx, hxs⟩ := ha hgT
      exact ⟨x, List.mem_append_left _ hx, hxs⟩

theorem updEnd_bound (g : TripGroup) (e : EventSummary) (E : List EventSummary)
    (hb : ∀ x ∈ E, pyT x.end_ = true →
      pyT g.end_ = true ∧ strLe (x.end_.getD ("")) (g.end_.getD ("")) = true)
    (ha : pyT g.end_ = true → ∃ x ∈ E, x.end_ = g.end_) :
    (∀ x ∈ E ++ [e], pyT x.end_ = true →
      pyT (updEnd g e).end_ = true
      ∧ strLe (x.end_.getD ("")) ((updEnd g e).end_.getD ("")) = true)
    ∧ (pyT (updEnd g e).end_ = true → ∃ x ∈ E ++ [e], x.end_ = (updEnd g e).end_) := by
  unfold updEnd
  by_cases c : (pyT e.end_
      && (!(pyT g.end_) || strLt (g.end_.getD ("")) (e.end_.getD ("")))) = true
  · rw [if_pos c]
    obtain ⟨hT, hrest⟩ := (Bool.and_eq_true _ _) ▸ c
    constructor
    · intro x hx hxT
      rcases List.mem_append.mp hx with hx | hx
      · obtain ⟨hgT, hgle⟩ := hb x hx hxT
        refine ⟨hT, ?_⟩
        rcases (Bool.or_eq_true _ _) ▸ hrest with hng | hlt
        · rw [hgT] at hng
          exact absurd hng (by simp)
        · exact strLe_lt_le hgle hlt
      · have hxe : x = e := by simpa using hx
        subst hxe
        exact ⟨hT, strLe_refl _⟩
    · intro _
      exact ⟨e, by simp, rfl⟩
  · rw [if_neg c]
    constructor
    · intro x hx hxT
      rcases List.mem_append.mp hx with hx | hx
      · exact hb x hx hxT
      · have hxe : x = e := by simpa using hx
        subst hxe
        have hX : (!(pyT g.end_) || strLt (g.end_.getD ("")) (x.end_.getD (""))) = false := by
          simp only [hxT, Bool.true_and] at c
          exact Bool.not_eq_true _ ▸ Bool.of_not_eq_true c
        obtain ⟨hg, hnl⟩ := Bool.or_eq_false_iff.mp hX
        refine ⟨by simpa using hg, ?_⟩
        simp [strLe, hnl]
    · intro hgT
      obtain ⟨x, hx, hxs⟩ := ha hgT
      exact ⟨x, List.mem_append_left _ hx, hxs⟩

theorem updYear_bound (g : TripGroup) (e : EventSummary) (E : List EventSummary)
    (hb : ∀ x ∈ E, pyTN x.year = true →
      pyTN g.year = true ∧ g.year.getD 0 ≤ x.year.getD 0)
    (ha : pyTN g.year = true → ∃ x ∈ E, x.year = g.year) :
    (∀ x ∈ E ++ [e], pyTN x.year = true →
      pyTN (updYear g e).year = true ∧ (updYear g e).year.getD 0 ≤ x.year.getD 0)
    ∧ (pyTN (updYear g e).year = true → ∃ x ∈ E ++ [e], x.year = (updYear g e).year) := by
  unfold updYear
  by_cases c : (pyTN e.year && (!(pyTN g.year) || decide (e.year.getD 0 < g.year.getD 0))) = true
  · rw [if_pos c]
    obtain ⟨hT, hrest⟩ := (Bool.and_eq_true _ _) ▸ c
    constructor
    · intro x hx hxT
      rcases List.mem_append.mp hx with hx | hx
      · obtain ⟨hgT, hgle⟩ := hb x hx hxT
        refine ⟨hT, ?_⟩
        rcases (Bool.or_eq_true _ _) ▸ hrest with hng | hlt
        · rw [hgT] at hng
          exact absurd hng (by simp)
        · have := of_decide_eq_true hlt
          show e.year.getD 0 ≤ x.year.getD 0
          omega
      · have hxe : x = e := by simpa using hx
        subst hxe
        exact ⟨hT, le_refl _⟩
    · intro _
      exact ⟨e, by simp, rfl⟩
  · rw [if_neg c]
    constructor
    · intro x hx hxT
      rcases List.mem_append.mp hx with hx | hx
      · exact hb x hx hxT
      · have hxe : x = e := by simpa using hx
        subst hxe
        have hX : (!(pyTN g.year) || decide (x.year.getD 0 < g.year.getD 0)) = false := by
          simp only [hxT, Bool.true_and] at c
          exact Bool.not_eq_true _ ▸ Bool.of_not_eq_true c
        obtain ⟨hg, hnl⟩ := Bool.or_eq_false_iff.mp hX
        refine ⟨by simpa using hg, ?_⟩
        have := of_decide_eq_false hnl
        omega
    · intro hgT
      obtain ⟨x, hx, hxs⟩ := ha hgT
      exact ⟨x, List.mem_append_left _ hx, hxs⟩

theorem updateG_GOK (g : TripGroup) (e : EventSummary) (hg : GOK g) :
    GOK (updateG g e) := by
  obtain ⟨hbs, hbe, hby, has, hae, hay⟩ := hg
  unfold updateG
  have h1 := updStart_bound ({ g with events := g.events ++ [e] }) e g.events hbs has
  have h2 := updEnd_bound (updStart { g with events := g.events ++ [e] } e) e g.events
    (by rw [updStart_end]; exact hbe) (by rw [updStart_end]; exact hae)
  have h3 := updYear_bound (updEnd (updStart { g with events := g.events ++ [e] } e) e) e
    g.events
    (by rw [updEnd_year, updStart_year]; exact hby)
    (by rw [updEnd_year, updStart_year]; exact hay)
  have hev : (updYear (updEnd (updStart { g with events := g.events ++ [e] } e) e) e).events
      = g.events ++ [e] := by
    rw [updYear_events, updEnd_events, updStart_events]
  have hstv : (updYear (updEnd (updStart { g with events := g.events ++ [e] } e) e) e).start
      = (updStart { g with events := g.events ++ [e] } e).start := by
    rw [updYear_start, updEnd_start]
  have hendv : (updYear (updEnd (updStart { g with events := g.events ++ [e] } e) e) e).end_
      = (updEnd (updStart { g with events := g.events ++ [e] } e) e).end_ := by
    rw [updYear_end]
  refine ⟨?_, ?_, ?_, ?_, ?_, ?_⟩
  · intro x hx hxT
    rw [hev] at hx
    rw [hstv]
    exact h1.1 x hx hxT
  · intro x hx hxT
    rw [hev] at hx
    rw [hendv]
    exact h2.1 x hx hxT
  · intro x hx hxT
    rw [hev] at hx
    exact h3.1 x hx hxT
  · rw [hstv, hev]
    exact h1.2
  · rw [hendv, hev]
    exact h2.2
  · rw [hev]
    exact h3.2


theorem updateG_initG (gk : String) (e : EventSummary) :
    updateG (initG gk e) e =
      { tripGroupKey := gk, tripName := pyOrD (some e.tripName) gk, year := e.year,
        start := e.start, end_ := e.end_, events := [e] } := by
  unfold updateG initG updStart updEnd updYear
  cases hs : pyT e.start <;> cases he : pyT e.end_ <;> cases hy : pyTN e.year <;>
    simp [hs, he, hy, strLt_irrefl, lt_irrefl]

theorem initG_updateG_GOK (gk : String) (e : EventSummary) :
    GOK (updateG (initG gk e) e) := by
  rw [updateG_initG]
  refine ⟨?_, ?_, ?_, fun _ => ⟨e, by simp, rfl⟩, fun _ => ⟨e, by simp, rfl⟩,
    fun _ => ⟨e, by simp, rfl⟩⟩
  · intro x hx hxT
    have hxe : x = e := by simpa using hx
    subst hxe
    exact ⟨hxT, strLe_refl _⟩
  · intro x hx hxT
    have hxe : x = e := by simpa using hx
    subst hxe
    exact ⟨hxT, strLe_refl _⟩
  · intro x hx hxT
    have hxe : x = e := by simpa using hx
    subst hxe
    exact ⟨hxT, le_refl _⟩

theorem alookup_none_iff {α : Type} (k : String) (l : List (String × α)) :
    alookup k l = none ↔ k ∉ l.map Prod.fst := by
  induction l with
  | nil => simp [alookup]
  | cons p rest ih =>
    simp only [alookup, List.map_cons, List.mem_cons]
    by_cases hc : (p.1 == k) = true
    · rw [if_pos hc]
      have : p.1 = k := by simpa using hc
      simp [this]
    · rw [if_neg hc]
      have : ¬ p.1 = k := by simpa using hc
      rw [ih]
      constructor
      · intro h hk
        rcases hk with hk | hk
        · exact this hk.symm
        · exact h hk
      · intro h hk
        exact h (Or.inr hk)

theorem alookup_some_mem {α : Type} {k : String} {l : List (String × α)} {v : α}
    (h : alookup k l = some v) : k ∈ l.map Prod.fst := by
  by_contra hk
  rw [← alookup_none_iff k l] at hk
  rw [hk] at h
  exact absurd h (by simp)

theorem addEvent_map_update_keys (gs : List (String × TripGroup)) (e : EventSummary) :
    ((gs.map (fun p => if p.1 == e.tripGroupKey then (p.1, updateG p.2 e) else p)).map
      Prod.fst) = gs.map Prod.fst := by
  rw [List.map_map]
  apply List.map_congr_left
  intro p _
  by_cases hc : (p.1 == e.tripGroupKey) = true
  · have hpe : p.1 = e.tripGroupKey := by simpa using hc
    simp [hpe]
  · have hpe : ¬ p.1 = e.tripGroupKey := by simpa using hc
    simp [hpe]

theorem addEvent_inv (gs : List (String × TripGroup)) (e : EventSummary) (h : InvG gs) :
    InvG (addEvent gs e) := by
  unfold addEvent
  by_cases hgk : (e.tripGroupKey == "") = true
  · rw [if_pos hgk]
    exact h
  · rw [if_neg hgk]
    cases hlk : alookup e.tripGroupKey gs with
    | none =>
      constructor
      · rw [List.map_append, List.nodup_append]
        refine ⟨h.1, by simp, ?_⟩
        intro a ha hb
        have hab : a = e.tripGroupKey := by simpa using hb
        subst hab
        exact absurd ha ((alookup_none_iff _ _).mp hlk)
      · intro p hp
        rcases List.mem_append.mp hp with hp | hp
        · exact h.2 p hp
        · have hpe : p = (e.tripGroupKey, updateG (initG e.tripGroupKey e) e) := by
            simpa using hp
          subst hpe
          refine ⟨by simpa using hgk, ?_, initG_updateG_GOK _ _⟩
          rw [updateG_key]
          rfl
    | some g0 =>
      constructor
      · rw [addEvent_map_update_keys]
        exact h.1
      · intro p hp
        obtain ⟨q, hq, hfq⟩ := List.mem_map.mp hp
        by_cases hc : (q.1 == e.tripGroupKey) = true
        · rw [if_pos hc] at hfq
          subst hfq
          obtain ⟨h1, h2, h3⟩ := h.2 q hq
          refine ⟨h1, ?_, updateG_GOK _ _ h3⟩
          rw [updateG_key]
          exact h2
        · rw [if_neg hc] at hfq
          subst hfq
          exact h.2 q hq

theorem foldl_addEvent_inv (evs : List EventSummary) :
    ∀ gs, InvG gs → InvG (evs.foldl addEvent gs) := by
  induction evs with
  | nil => intro gs h; exact h
  | cons e rest ih =>
    intro gs h
    rw [List.foldl_cons]
    exact ih (addEvent gs e) (addEvent_inv gs e h)

theorem addEvent_keys_mem (gs : List (String × TripGroup)) (e : EventSummary) (k : String) :
    k ∈ (addEvent gs e).map Prod.fst
      ↔ k ∈ gs.map Prod.fst ∨ (k = e.tripGroupKey ∧ e.tripGroupKey ≠ "") := by
  unfold addEvent
  by_cases hgk : (e.tripGroupKey == "") = true
  · rw [if_pos hgk]
    have hg : e.tripGroupKey = "" := by simpa using hgk
    simp [hg]
  · rw [if_neg hgk]
    have hne : e.tripGroupKey ≠ "" := by simpa using hgk
    cases hlk : alookup e.tripGroupKey gs with
    | none =>
      rw [List.map_append]
      simp only [List.mem_append]
      constructor
      · intro hin
        rcases hin with hin | hin
        · exact Or.inl hin
        · exact Or.inr ⟨by simpa using hin, hne⟩
      · intro hin
        rcases hin with hin | ⟨rfl, _⟩
        · exact Or.inl hin
        · exact Or.inr (by simp)
    | some g0 =>
      rw [addEvent_map_update_keys]
      constructor
      · exact Or.inl
      · intro hin
        rcases hin with hin | ⟨rfl, _⟩
        · exact hin
        · exact alookup_some_mem hlk

theorem foldl_addEvent_keys_mem (evs : List EventSummary) :
    ∀ gs k, (k ∈ (evs.foldl addEvent gs).map Prod.fst
      ↔ k ∈ gs.map Prod.fst ∨ ∃ e ∈ evs, e.tripGroupKey = k ∧ k ≠ "") := by
  induction evs with
  | nil => intro gs k; simp
  | cons e rest ih =>
    intro gs k
    rw [List.foldl_cons, ih (addEvent gs e) k, addEvent_keys_mem]
    constructor
    · intro hin
      rcases hin with (hin | ⟨rfl, hne⟩) | ⟨x, hx, hxk, hk⟩
      · exact Or.inl hin
      · exact Or.inr ⟨e, by simp, rfl, hne⟩
      · exact Or.inr ⟨x, by simp [hx], hxk, hk⟩
    · intro hin
      rcases hin with hin | ⟨x, hx, hxk, hk⟩
      · exact Or.inl (Or.inl hin)
      · rcases List.mem_cons.mp hx with rfl | hx
        · exact Or.inl (Or.inr ⟨hxk.symm, hxk ▸ hk⟩)
        · exact Or.inr ⟨x, hx, hxk, hk⟩

theorem filter_key_zero {α : Type} (f : α → String) (l : List α) (k : String)
    (h : k ∉ l.map f) : (l.filter (fun x => f x == k)).length = 0 := by
  induction l with
  | nil => simp
  | cons x xs ih =>
    simp only [List.map_cons, List.mem_cons] at h
    push_neg at h
    have hx : (f x == k) = false := by simpa using (fun he => h.1 he.symm)
    rw [List.filter_cons]
    rw [hx]
    simp only [Bool.false_eq_true, if_false]
    exact ih h.2

theorem filter_key_count {α : Type} (f : α → String) (l : List α) (k : String)
    (hn : (l.map f).Nodup) :
    (l.filter (fun x => f x == k)).length = if k ∈ l.map f then 1 else 0 := by
  induction l with
  | nil => simp
  | cons x xs ih =>
    simp only [List.map_cons, List.nodup_cons] at hn
    rw [List.filter_cons]
    by_cases hx : f x = k
    · have hb : (f x == k) = true := by simpa using hx
      rw [hb]
      simp only [if_true, List.length_cons]
      rw [filter_key_zero f xs k (hx ▸ hn.1)]
      simp [List.map_cons, hx]
    · have hb : (f x == k) = false := by simpa using hx
      rw [hb]
      simp only [Bool.false_eq_true, if_false]
      rw [ih hn.2]
      have hiff : k ∈ List.map f (x :: xs) ↔ k ∈ List.map f xs := by
        simp only [List.map_cons, List.mem_cons]
        constructor
        · rintro (rfl | hin)
          · exact absurd rfl hx
          · exact hin
        · exact Or.inr
      by_cases hk : k ∈ List.map f xs
      · rw [if_pos hk, if_pos (hiff.mpr hk)]
      · rw [if_neg hk, if_neg (fun hmem => hk (hiff.mp hmem))]

theorem filter_key_one {α : Type} (f : α → String) (l : List α) (k : String)
    (hn : (l.map f).Nodup) (hx : ∃ x ∈ l, f x = k) :
    (l.filter (fun x => f x == k)).length = 1 := by
  rw [filter_key_count f l k hn, if_pos]
  obtain ⟨x, hxl, hxk⟩ := hx
  exact hxk ▸ List.mem_map_of_mem f hxl


/-- Claim C8: the output assembler groups event summaries by trip group
key; each group's start/end/year are the min/max/min over the truthy
member fields and are attained by a member (GOK); members are sorted by
start ascending with absent start first, and the group collection is
sorted the same way; the concrete two-summary instance groups to one
TripGroup whose start is the earlier value with the earlier member first. -/
theorem c8_output_assembler :
    (∀ evs g, g ∈ groupTrips evs →
      List.Pairwise (fun a b => leEv a b = true) g.events ∧ GOK g)
    ∧ (∀ evs, List.Pairwise (fun a b => leTG a b = true) (groupTrips evs))
    ∧ groupTrips [evJan5, evJan1] = [grpC8] := by
  refine ⟨?_, ?_, by rfl⟩
  · intro evs g hg
    simp only [groupTrips] at hg
    rw [pySorted_mem] at hg
    obtain ⟨p, hp, rfl⟩ := List.mem_map.mp hg
    have hinv := foldl_addEvent_inv evs [] ⟨by simp, by simp⟩
    obtain ⟨_, _, hGOK⟩ := hinv.2 p hp
    constructor
    · exact pySorted_pairwise leEv leEv_total leEv_trans p.2.events
    · obtain ⟨hbs, hbe, hby, has, hae, hay⟩ := hGOK
      refine ⟨?_, ?_, ?_, ?_, ?_, ?_⟩
      · intro x hx hxT
        exact hbs x ((pySorted_mem leEv x p.2.events).mp hx) hxT
      · intro x hx hxT
        exact hbe x ((pySorted_mem leEv x p.2.events).mp hx) hxT
      · intro x hx hxT
        exact hby x ((pySorted_mem leEv x p.2.events).mp hx) hxT
      · intro hT
        obtain ⟨x, hx, hxs⟩ := has hT
        exact ⟨x, (pySorted_mem leEv x _).mpr hx, hxs⟩
      · intro hT
        obtain ⟨x, hx, hxs⟩ := hae hT
        exact ⟨x, (pySorted_mem leEv x _).mpr hx, hxs⟩
      · intro hT
        obtain ⟨x, hx, hxs⟩ := hay hT
        exact ⟨x, (pySorted_mem leEv x _).mpr hx, hxs⟩
  · intro evs
    simp only [groupTrips]
    exact pySorted_pairwise leTG leTG_total leTG_trans _

/-- Witness for C8: the per-group facts applied to the concrete group of
the two-summary run, whose membership hypothesis is discharged by the
concrete evaluation. -/
theorem c8_witness :
    (List.Pairwise (fun a b => leEv a b = true) grpC8.events ∧ GOK grpC8)
    ∧ List.Pairwise (fun a b => leTG a b = true) (groupTrips [evJan5, evJan1]) := by
  refine ⟨c8_output_assembler.1 [evJan5, evJan1] grpC8 ?_,
    c8_output_assembler.2.1 [evJan5, evJan1]⟩
  rw [c8_output_assembler.2.2]
  simp


theorem pyOrD_ne_empty (o : Option String) (d : String) (hd : d ≠ "") : pyOrD o d ≠ "" := by
  cases o with
  | none => exact hd
  | some s =>
    show (if s == "" then d else s) ≠ ""
    by_cases hc : (s == "") = true
    · rw [if_pos hc]
      exact hd
    · rw [if_neg hc]
      simpa using hc

theorem mkSeg_key (tzdb : String → Option Int) (idx : Idx) (gk nm t tk : String)
    (seg : RawSeg) (s : SegmentRecord) (h : mkSeg tzdb idx gk nm t tk seg = some s) :
    s.trip_key = tk ∧ s.trip_group_key = gk := by
  simp only [mkSeg] at h
  split at h
  · have hrec := Option.some_inj.mp h
    rw [← hrec]
    exact ⟨rfl, rfl⟩
  · exact absurd h (by simp)

theorem processEvent_key (tzdb : String → Option Int) (idx : Idx) (gk nm stem : String)
    (i : Nat) (ev : TripEvent) (segs segs1 : List SegmentRecord) (osum : Option EventSummary)
    (h : processEvent tzdb idx gk nm stem i ev segs = .ok (segs1, osum)) :
    ∀ e, osum = some e → e.tripKey = tripKeyStr stem i ev ∧ e.tripGroupKey = gk := by
  simp only [processEvent] at h
  split at h
  · split at h
    · exact absurd h (by simp)
    · split at h
      · exact absurd h (by simp)
      · injection h with h2
        obtain ⟨h3, h4⟩ := Prod.mk.inj h2
        intro e he
        rw [← h4] at he
        have he' := Option.some_inj.mp he
        rw [← he']
        exact ⟨rfl, rfl⟩
  · split at h
    · exact absurd h (by simp)
    · split at h
      · injection h with h2
        obtain ⟨h3, h4⟩ := Prod.mk.inj h2
        intro e he
        rw [← h4] at he
        have he' := Option.some_inj.mp he
        rw [← he']
        exact ⟨rfl, rfl⟩
      · injection h with h2
        obtain ⟨h3, h4⟩ := Prod.mk.inj h2
        intro e he
        rw [← h4] at he
        exact absurd he (by simp)

theorem processEvent_segs (tzdb : String → Option Int) (idx : Idx) (gk nm stem : String)
    (i : Nat) (ev : TripEvent) (segs segs1 : List SegmentRecord) (osum : Option EventSummary)
    (h : processEvent tzdb idx gk nm stem i ev segs = .ok (segs1, osum)) :
    ∀ s ∈ segs1, s ∈ segs ∨ ∃ e, osum = some e ∧ e.tripKey = s.trip_key := by
  by_cases hhot : hotelShortcut ev = true
  · simp only [processEvent, hhot, if_true] at h
    split at h
    · exact absurd h (by simp)
    · split at h
      · exact absurd h (by simp)
      · injection h with h2
        obtain ⟨h3, h4⟩ := Prod.mk.inj h2
        intro s hs
        rw [← h3] at hs
        exact Or.inl hs
  · have hhot' : hotelShortcut ev = false := by simpa using hhot
    obtain ⟨hseg, hiff, hkey⟩ :=
      processEvent_spec tzdb idx gk nm stem i ev segs segs1 osum hhot' h
    intro s hs
    rw [hseg] at hs
    rcases List.mem_append.mp hs with hs | hs
    · exact Or.inl hs
    · right
      obtain ⟨seg0, hseg0, hmk⟩ := List.mem_filterMap.mp hs
      have hkey2 := (mkSeg_key _ _ _ _ _ _ _ _ hmk).1
      have hlen : (ev.legs.flatMap Leg.segments).length ≠ 0 := by
        intro h0
        rw [List.length_eq_zero] at h0
        rw [h0] at hseg0
        simp at hseg0
      obtain ⟨e, he⟩ := Option.isSome_iff_exists.mp (hiff.mpr hlen)
      exact ⟨e, he, ((hkey e he).1).trans hkey2.symm⟩

theorem goEvents_spec (tzdb : String → Option Int) (idx : Idx) (gk nm stem : String) :
    ∀ (evs : List TripEvent) (i : Nat) (segs segs' : List SegmentRecord)
      (sums : List EventSummary),
    goEvents tzdb idx gk nm stem i evs segs = .ok (segs', sums) →
    (sums.map EventSummary.tripKey).Sublist (eventKeysAux stem i evs)
    ∧ (∀ e ∈ sums, e.tripGroupKey = gk)
    ∧ (∀ s ∈ segs', s ∈ segs ∨ ∃ e ∈ sums, e.tripKey = s.trip_key) := by
  intro evs
  induction evs with
  | nil =>
    intro i segs segs' sums h
    have h' : ((segs, ([] : List EventSummary)) : List SegmentRecord × List EventSummary)
        = (segs', sums) := by simpa [goEvents] using h
    obtain ⟨h1, h2⟩ := Prod.mk.inj h'
    refine ⟨by rw [← h2]; simp [eventKeysAux], by rw [← h2]; simp, ?_⟩
    intro s hs
    rw [← h1] at hs
    exact Or.inl hs
  | cons ev rest ih =>
    intro i segs segs' sums h
    simp only [goEvents] at h
    split at h
    · exact absurd h (by simp)
    · rename_i segs1 osum hpe
      split at h
      · exact absurd h (by simp)
      · rename_i segs2 sums2 hge
        injection h with h2
        obtain ⟨h3, h4⟩ := Prod.mk.inj h2
        obtain ⟨ihsub, ihgk, ihsegs⟩ := ih (i + 1) segs1 segs2 sums2 hge
        have hkeyl := processEvent_key tzdb idx gk nm stem i ev segs segs1 osum hpe
        have hsegl := processEvent_segs tzdb idx gk nm stem i ev segs segs1 osum hpe
        refine ⟨?_, ?_, ?_⟩
        · rw [← h4]
          cases osum with
          | none =>
            show ((([] : List EventSummary) ++ sums2).map EventSummary.tripKey).Sublist
              (tripKeyStr stem i ev :: eventKeysAux stem (i + 1) rest)
            rw [List.nil_append]
            exact ihsub.cons _
          | some e =>
            show ((([e] : List EventSummary) ++ sums2).map EventSummary.tripKey).Sublist
              (tripKeyStr stem i ev :: eventKeysAux stem (i + 1) rest)
            rw [List.singleton_append, List.map_cons, (hkeyl e rfl).1]
            exact ihsub.cons₂ _
        · intro e he
          rw [← h4] at he
          rcases List.mem_append.mp he with he | he
          · cases osum with
            | none => simp at he
            | some e0 =>
              have hee : e = e0 := by simpa using he
              subst hee
              exact (hkeyl e rfl).2
          · exact ihgk e he
        · intro s hs
          rw [← h3] at hs
          rcases ihsegs s hs with hs1 | ⟨e, he, hek⟩
          · rcases hsegl s hs1 with hs2 | ⟨e, he, hek⟩
            · exact Or.inl hs2
            · right
              refine ⟨e, ?_, hek⟩
              rw [← h4, he]
              simp
          · right
            exact ⟨e, by rw [← h4]; exact List.mem_append_right _ he, hek⟩

theorem goFiles_spec (tzdb : String → Option Int) (idx : Idx) :
    ∀ (files : List SrcFile) (segs segs' : List SegmentRecord) (sums : List EventSummary),
    goFiles tzdb idx files segs = .ok (segs', sums) →
    (sums.map EventSummary.tripKey).Sublist (files.flatMap fileEventKeys)
    ∧ ((∀ f ∈ files, f.stem ≠ "") → ∀ e ∈ sums, e.tripGroupKey ≠ "")
    ∧ (∀ s ∈ segs', s ∈ segs ∨ ∃ e ∈ sums, e.tripKey = s.trip_key) := by
  intro files
  induction files with
  | nil =>
    intro segs segs' sums h
    have h' : ((segs, ([] : List EventSummary)) : List SegmentRecord × List EventSummary)
        = (segs', sums) := by simpa [goFiles] using h
    obtain ⟨h1, h2⟩ := Prod.mk.inj h'
    refine ⟨by rw [← h2]; simp, by rw [← h2]; simp, ?_⟩
    intro s hs
    rw [← h1] at hs
    exact Or.inl hs
  | cons f rest ih =>
    intro segs segs' sums h
    simp only [goFiles] at h
    split at h
    · rename_i hcont
      obtain ⟨hsub, hgk, hsegs⟩ := ih segs segs' sums h
      refine ⟨?_, ?_, hsegs⟩
      · have hfk : (f :: rest).flatMap fileEventKeys = fileEventKeys f ++ rest.flatMap fileEventKeys := rfl
        rw [hfk]
        unfold fileEventKeys
        rw [hcont]
        exact hsub
      · intro hst e he
        exact hgk (fun f2 hf2 => hst f2 (by simp [hf2])) e he
    · rename_i doc hcont
      split at h
      · exact absurd h (by simp)
      · rename_i segs1 sums1 hge
        split at h
        · exact absurd h (by simp)
        · rename_i segs2 sums2 hgf
          injection h with h2
          obtain ⟨h3, h4⟩ := Prod.mk.inj h2
          obtain ⟨esub, egk, esegs⟩ :=
            goEvents_spec tzdb idx _ _ f.stem doc.tripEvents 0 segs segs1 sums1 hge
          obtain ⟨rsub, rgk, rsegs⟩ := ih segs1 segs2 sums2 hgf
          refine ⟨?_, ?_, ?_⟩
          · rw [← h4, List.map_append]
            have hfk : (f :: rest).flatMap fileEventKeys
                = fileEventKeys f ++ rest.flatMap fileEventKeys := rfl
            rw [hfk]
            have hfe : fileEventKeys f = eventKeysAux f.stem 0 doc.tripEvents := by
              unfold fileEventKeys
              rw [hcont]
            exact List.Sublist.append (hfe ▸ esub) rsub
          · intro hst e he
            rw [← h4] at he
            rcases List.mem_append.mp he with he | he
            · rw [egk e he]
              exact pyOrD_ne_empty _ _ (hst f (by simp))
            · exact rgk (fun f2 hf2 => hst f2 (by simp [hf2])) e he
          · intro s hs
            rw [← h3] at hs
            rcases rsegs s hs with hs1 | ⟨e, he, hek⟩
            · rcases esegs s hs1 with hs2 | ⟨e, he, hek⟩
              · exact Or.inl hs2
              · right
                exact ⟨e, by rw [← h4]; exact List.mem_append_left _ he, hek⟩
            · right
              exact ⟨e, by rw [← h4]; exact List.mem_append_right _ he, hek⟩

/-- Claim C9 (amended): provided all event trip keys (stem:id-or-index)
across the run are pairwise distinct and all document stems are nonempty,
every emitted Segment's trip key matches exactly one EventSummary, and
every EventSummary's trip group key matches exactly one TripGroup.  With
duplicate keys this fails (see c9_counterexample). -/
theorem c9_key_invariant (tzdb : String → Option Int) (idx : Idx) (files : List SrcFile)
    (segs : List SegmentRecord) (sums : List EventSummary)
    (h : collect_segments tzdb idx files = .ok (segs, sums))
    (hkeys : (files.flatMap fileEventKeys).Nodup)
    (hstems : ∀ f ∈ files, f.stem ≠ "") :
    (∀ s ∈ segs, (sums.filter (fun e => e.tripKey == s.trip_key)).length = 1)
    ∧ (∀ e ∈ sums, ((groupTrips sums).filter
        (fun g => g.tripGroupKey == e.tripGroupKey)).length = 1) := by
  obtain ⟨hsub, hgk, hsegs⟩ := goFiles_spec tzdb idx files [] segs sums h
  have hnod : (sums.map EventSummary.tripKey).Nodup := List.Nodup.sublist hsub hkeys
  constructor
  · intro s hs
    rcases hsegs s hs with hmem | ⟨e, he, hek⟩
    · simp at hmem
    · exact filter_key_one EventSummary.tripKey sums s.trip_key hnod ⟨e, he, hek⟩
  · intro e he
    have hkne : e.tripGroupKey ≠ "" := hgk hstems e he
    simp only [groupTrips]
    rw [pySorted_filter_len]
    have hinv := foldl_addEvent_inv sums [] ⟨by simp, by simp⟩
    apply filter_key_one TripGroup.tripGroupKey _ e.tripGroupKey
    · have hmap : (((sums.foldl addEvent []).map
          (fun p => ({ p.2 with events := pySorted leEv p.2.events } : TripGroup))).map
            TripGroup.tripGroupKey) = (sums.foldl addEvent []).map Prod.fst := by
        rw [List.map_map]
        apply List.map_congr_left
        intro p hp
        show p.2.tripGroupKey = p.1
        exact (hinv.2 p hp).2.1
      rw [hmap]
      exact hinv.1
    · have hkmem : e.tripGroupKey ∈ ((sums.foldl addEvent []).map Prod.fst) := by
        rw [foldl_addEvent_keys_mem]
        exact Or.inr ⟨e, he, rfl, hkne⟩
      obtain ⟨p, hp, hpk⟩ := List.mem_map.mp hkmem
      refine ⟨{ p.2 with events := pySorted leEv p.2.events }, List.mem_map_of_mem _ hp, ?_⟩
      show p.2.tripGroupKey = e.tripGroupKey
      rw [(hinv.2 p hp).2.1, hpk]

/-- Counterexample to C9 as stated: two events of one document share the
explicit id 7, so both their summaries carry trip key d:7 and the first
segment's trip key matches two EventSummaries, not exactly one (the second
summary's segmentCount is even inflated to 2 by the collision). -/
theorem c9_counterexample :
    collect_segments tzdb0 idx0 [fileC9] = .ok ([segD1, segD2], [sumD1, sumD2])
    ∧ segD1.trip_key = "d:7"
    ∧ (([sumD1, sumD2].filter (fun e => e.tripKey == "d:7")).length = 2)
    ∧ sumD2.segmentCount = 2 := by
  exact ⟨by rfl, rfl, by rfl, rfl⟩

/-- Witness for C9: the amended invariant applied to a concrete one-event
run with distinct keys and nonempty stems. -/
theorem c9_witness :
    ([sumC6].filter (fun e => e.tripKey == segC6.trip_key)).length = 1
    ∧ ((groupTrips [sumC6]).filter
        (fun g => g.tripGroupKey == sumC6.tripGroupKey)).length = 1 := by
  have h := c9_key_invariant tzdb0 idx0 [fileC6] [segC6] [sumC6] (by rfl)
    (by simp [fileEventKeys, fileC6, eventKeysAux])
    (by intro f hf; rw [List.mem_singleton] at hf; subst hf; simp [fileC6])
  exact ⟨h.1 segC6 (by simp), h.2 sumC6 (by simp)⟩


end KayakViz
